import Mathlib

/-!
# trojan-go: routing engine, rule-set loader and obfuscation codec

A shallow embedding of `router/mixed/geo.go` (the `GeoRouter`) and of the
obfuscation codec of `protocol/trojan/websocket.go`, with the properties of
the specification that concern them.

Conventions of the embedding:

* a Go `string` / `[]byte` is the list of its bytes, each byte a `Nat`;
* a Go slice that the code compares with `nil` is an `Option (List _)`,
  `none` being the nil slice;
* library calls whose result the code only inspects (`regexp.Match`,
  `net.ResolveIPAddr`, `proto.Unmarshal`, `strings.ToUpper`, the AES-CTR
  keystream) are parameters of the embedded functions.
-/

namespace TrojanGo

/-! ## Strings -/

/-- A Go string: its sequence of bytes. -/
abbrev GoString := List Nat

/-- Bytes of an ASCII literal (one byte per character). -/
def bytes (s : String) : GoString := s.toList.map Char.toNat

/-- Go `strings.HasSuffix(s, suffix)`:
`len(s) >= len(suffix) && s[len(s)-len(suffix):] == suffix`. -/
def HasSuffix (s suffix : GoString) : Bool :=
  decide (suffix.length ≤ s.length) && (s.drop (s.length - suffix.length) == suffix)

/-- Go `strings.HasPrefix(s, prefix)`. -/
def HasPrefix (s pre : GoString) : Bool :=
  decide (pre.length ≤ s.length) && (s.take pre.length == pre)

/-- Go `strings.Index(s, substr)`: the index of the first instance of `substr`
in `s`, or `-1` if `substr` is not present in `s`. -/
def Index (s substr : GoString) : Int :=
  match s with
  | [] => if HasPrefix [] substr then 0 else -1
  | c :: t =>
    if HasPrefix (c :: t) substr then 0
    else
      let r := Index t substr
      if r < 0 then -1 else r + 1

/-- Go `strings.Contains(s, substr)`: `Index(s, substr) >= 0`. -/
def Contains (s substr : GoString) : Bool := decide (0 ≤ Index s substr)

/-- The byte `s[i]` of a Go string, for an `int` index (`none` when the index
is out of range, where Go panics). -/
def byteAt (s : GoString) (i : Int) : Option Nat :=
  if i < 0 then none else s[i.toNat]?

/-! ## Domain rules (`v2router.Domain`) -/

/-- The `v2router.Domain_Type` enumeration. -/
inductive DomainType where
  | Plain
  | Regex
  | Domain
  | Full
  | Other (tag : Nat)
  deriving DecidableEq, Repr

/-- A `v2router.Domain` rule: `GetType()` and `GetValue()`. -/
structure Domain where
  type : DomainType
  value : GoString
  deriving DecidableEq, Repr

/-- The outcome of `regexp.Match(pattern, b)`: `some matched`, or `none` when
the pattern does not compile (`err != nil`). -/
abbrev RegexpMatch := GoString → GoString → Option Bool

/-- The body of the `Domain_Domain, Domain_Full` case of `matchDomain`: the
rule value is a suffix of `fulldomain` and the first occurrence of the value
starts at index 0 or right after a `.` (byte 46). -/
def suffixHit (fulldomain domain : GoString) : Bool :=
  if HasSuffix fulldomain domain then
    let idx := Index fulldomain domain
    decide (idx = 0) || (byteAt fulldomain (idx - 1) == some 46)
  else false

/-- The loop of `GeoRouter.matchDomain` over the rules `r.domains`. -/
def matchDomainLoop (re : RegexpMatch) (fulldomain : GoString) : List Domain → Bool
  | [] => false
  | d :: rest =>
    match d.type with
    | .Domain | .Full =>
      if suffixHit fulldomain d.value then true
      else matchDomainLoop re fulldomain rest
    | .Plain =>
      if Contains fulldomain d.value then true
      else matchDomainLoop re fulldomain rest
    | .Regex =>
      match re d.value fulldomain with
      | none => false
      | some matched =>
        if matched then true else matchDomainLoop re fulldomain rest
    | .Other _ => matchDomainLoop re fulldomain rest

/-! ## IP addresses (`net.IP`, `net.IPMask`, `net.IPNet`) -/

/-- A Go `net.IP` or `net.IPMask`: a byte slice; the nil slice is `[]` (the
library functions below only look at its length and bytes). -/
abbrev IP := List Nat

/-- The 12-byte header of an IPv4 address in 16-byte form. -/
def v4InV6Header : List Nat := [0, 0, 0, 0, 0, 0, 0, 0, 0, 0, 0xff, 0xff]

/-- Go `isZeros`. -/
def isZeros (p : List Nat) : Bool := p.all (fun b => b == 0)

/-- Go `allFF`. -/
def allFF (p : List Nat) : Bool := p.all (fun b => b == 0xff)

/-- Go `ip.To4()`: the 4-byte form of an IPv4 address, `none` for the nil
result. -/
def To4 (ip : IP) : Option IP :=
  if ip.length = 4 then some ip
  else if ip.length = 16 ∧ isZeros (ip.take 10) = true ∧ ip[10]? = some 0xff ∧ ip[11]? = some 0xff then
    some (ip.drop 12)
  else none

/-- The loop of Go `net.CIDRMask`: `l` mask bytes with `n` leading one bits
left to place; a partial byte is `^byte(0xff >> n)`. -/
def maskBytes : Nat → Nat → List Nat
  | 0, _ => []
  | l + 1, n =>
    if 8 ≤ n then 0xff :: maskBytes l (n - 8)
    else (0xff - (0xff >>> n)) :: maskBytes l 0

/-- Go `net.CIDRMask(ones, bits)`; the nil result is `[]`. The argument
`ones` comes from a `uint32`, so it is not negative. -/
def CIDRMask (ones bits : Nat) : List Nat :=
  if bits ≠ 8 * 4 ∧ bits ≠ 8 * 16 then []
  else if ones > bits then []
  else maskBytes (bits / 8) ones

/-- Go `ip.Mask(mask)`; the nil result is `[]`. -/
def Mask (ip : IP) (mask : List Nat) : IP :=
  let mask1 := if mask.length = 16 ∧ ip.length = 4 ∧ allFF (mask.take 12) = true then mask.drop 12 else mask
  let ip1 := if mask1.length = 4 ∧ ip.length = 16 ∧ ip.take 12 = v4InV6Header then ip.drop 12 else ip
  if ip1.length ≠ mask1.length then []
  else List.zipWith (fun a b => a &&& b) ip1 mask1

/-- Go `networkNumberAndMask(n)` for `n = &IPNet{IP: nIP, Mask: nMask}`; the
result `nil, nil` is `([], [])`. -/
def networkNumberAndMask (nIP : IP) (nMask : List Nat) : IP × List Nat :=
  let ip? : Option IP :=
    match To4 nIP with
    | some x => some x
    | none => if nIP.length ≠ 16 then none else some nIP
  match ip? with
  | none => ([], [])
  | some ip =>
    if nMask.length = 4 then
      if ip.length ≠ 4 then ([], []) else (ip, nMask)
    else if nMask.length = 16 then
      if ip.length = 4 then (ip, nMask.drop 12) else (ip, nMask)
    else ([], [])

/-- Go `n.Contains(ip)` for `n = &IPNet{IP: nIP, Mask: nMask}`. -/
def IPNetContains (nIP : IP) (nMask : List Nat) (ip : IP) : Bool :=
  let nm := networkNumberAndMask nIP nMask
  let ip1 := match To4 ip with
    | some x => x
    | none => ip
  if ip1.length ≠ nm.1.length then false
  else (List.range ip1.length).all
    (fun i => nm.1.getD i 0 &&& nm.2.getD i 0 == ip1.getD i 0 &&& nm.2.getD i 0)

/-- A `v2router.CIDR` rule: `GetIp()` and `GetPrefix()`. -/
structure CIDR where
  Ip : IP
  Prefix : Nat
  deriving DecidableEq, Repr

/-- The loop of `GeoRouter.matchIP` over the rules `r.cidrs`, with the
`isIPv6` and `len` computed from the request address. -/
def matchIPLoop (ip : IP) (isIPv6 : Bool) (len : Nat) : List CIDR → Bool
  | [] => false
  | c :: rest =>
    let n := c.Prefix
    let mask := CIDRMask n (8 * len)
    let cidrIP := c.Ip
    if (To4 cidrIP).isSome then
      if isIPv6 then matchIPLoop ip isIPv6 len rest
      else if IPNetContains (Mask cidrIP mask) mask ip then true
      else matchIPLoop ip isIPv6 len rest
    else
      if !isIPv6 then matchIPLoop ip isIPv6 len rest
      else if IPNetContains (Mask cidrIP mask) mask ip then true
      else matchIPLoop ip isIPv6 len rest

/-- The body of `GeoRouter.matchIP` on the rule list `cidrs`. -/
def matchIPOn (cidrs : List CIDR) (ip : IP) : Bool :=
  if (To4 ip).isSome then matchIPLoop ip false 4 cidrs
  else matchIPLoop ip true 16 cidrs

/-! ## The router -/

/-- The `router.Policy` outcomes. -/
inductive Policy where
  | Proxy
  | Bypass
  | Block
  | Unknown
  deriving DecidableEq, Repr

/-- The `router.Strategy` values. -/
inductive Strategy where
  | AsIs
  | IPIfNonMatch
  | IPOnDemand
  deriving DecidableEq, Repr

/-- The tag `common.AddressType` of an address; `Invalid` stands for every
other byte value. -/
inductive AddressType where
  | IPv4
  | DomainName
  | IPv6
  | Invalid (tag : Nat)
  deriving DecidableEq, Repr

/-- Go errors, by origin. -/
inductive Error where
  | invalidAddressType
  | resolve (code : Nat)
  | unmarshal (code : Nat)
  | eof
  | parse (code : Nat)
  | accept (code : Nat)
  | listen (code : Nat)
  | text (msg : GoString)
  deriving DecidableEq, Repr

/-- The fields of `protocol.Request` (through its `common.Address`) that the
router reads. -/
structure Request where
  AddressType : AddressType
  DomainName : GoString
  IP : IP
  deriving DecidableEq, Repr

/-- The struct `GeoRouter`; a nil rule slice is `none`. -/
structure GeoRouter where
  domains : Option (List Domain)
  cidrs : Option (List CIDR)
  matchPolicy : Policy
  nonMatchPolicy : Policy
  strategy : Strategy
  deriving DecidableEq, Repr

/-- The elements of a Go slice, none for the nil slice. -/
def elems {α : Type} : Option (List α) → List α
  | none => []
  | some xs => xs

/-- The method `GeoRouter.matchDomain`. -/
def matchDomain (re : RegexpMatch) (r : GeoRouter) (fulldomain : GoString) : Bool :=
  matchDomainLoop re fulldomain (elems r.domains)

/-- The method `GeoRouter.matchIP`. -/
def matchIP (r : GeoRouter) (ip : IP) : Bool :=
  matchIPOn (elems r.cidrs) ip

/-- The resolver `net.ResolveIPAddr("ip", domain)`: an address or an error. -/
abbrev Resolver := GoString → Except Error IP

/-- What a call of `RouteRequest` yields: the returned pair, and the log of
the domains handed to the resolver during the call, in order. -/
structure Outcome where
  policy : Policy
  err : Option Error
  lookups : List GoString
  deriving DecidableEq, Repr

mutual
/-- The method `GeoRouter.routeRequestByIP`. -/
def routeRequestByIP (re : RegexpMatch) (resolve : Resolver) (r : GeoRouter)
    (domain : GoString) : Outcome :=
  match resolve domain with
  | .error e => ⟨Policy.Unknown, some e, [domain]⟩
  | .ok ip =>
    let atype := if (To4 ip).isSome then AddressType.IPv4 else AddressType.IPv6
    let o := RouteRequest re resolve r ⟨atype, [], ip⟩
    ⟨o.policy, o.err, domain :: o.lookups⟩
termination_by 1
decreasing_by
  split <;> simp
/-- The method `GeoRouter.RouteRequest`. -/
def RouteRequest (re : RegexpMatch) (resolve : Resolver) (r : GeoRouter)
    (req : Request) : Outcome :=
  match _hty : req.AddressType with
  | .DomainName =>
    if r.domains = none then ⟨r.nonMatchPolicy, none, []⟩
    else
      let domain := req.DomainName
      if r.strategy = Strategy.IPOnDemand then routeRequestByIP re resolve r domain
      else if matchDomain re r domain then ⟨r.matchPolicy, none, []⟩
      else if r.strategy = Strategy.IPIfNonMatch then routeRequestByIP re resolve r domain
      else ⟨r.nonMatchPolicy, none, []⟩
  | .IPv4 | .IPv6 =>
    if r.cidrs = none then ⟨r.nonMatchPolicy, none, []⟩
    else if matchIP r req.IP then ⟨r.matchPolicy, none, []⟩
    else ⟨r.nonMatchPolicy, none, []⟩
  | .Invalid _ => ⟨Policy.Unknown, some Error.invalidAddressType, []⟩
termination_by (if req.AddressType = AddressType.DomainName then 2 else 0)
decreasing_by
  all_goals simp [*]
end

/-! ## The rule-set loader -/

/-- A `v2router.GeoIP` entry: `GetCountryCode()` and `GetCidr()`. -/
structure GeoIP where
  CountryCode : GoString
  Cidr : List CIDR
  deriving DecidableEq, Repr

/-- A `v2router.GeoSite` entry: `GetCountryCode()` and `GetDomain()`. -/
structure GeoSite where
  CountryCode : GoString
  Domain : List Domain
  deriving DecidableEq, Repr

/-- What `proto.Unmarshal` makes of a blob: the decoded entries
(`GetEntry()`), or the decoding error. -/
abbrev Unmarshal (α : Type) := List Nat → Except Error (List α)

/-- Go `append(s, xs...)`: appending nothing returns `s` itself, so a nil
slice stays nil. -/
def appendSlice {α : Type} (s : Option (List α)) (xs : List α) : Option (List α) :=
  match xs with
  | [] => s
  | x :: rest => some (elems s ++ x :: rest)

/-- The lines the loader logs for a tag. -/
inductive LogLine where
  | geoIPLoaded (tag : GoString)
  | geoIPNotFound (tag : GoString)
  | geoSiteLoaded (tag : GoString)
  | geoSiteNotFound (tag : GoString)
  deriving DecidableEq, Repr

/-- The inner loop of `LoadGeoData` over `geoip.GetEntry()` for the
upper-cased tag `c`: the rules of the first entry with that country code are
appended and the loop breaks. Returns the router and `found`. -/
def scanGeoIP (c : GoString) (r : GeoRouter) : List GeoIP → GeoRouter × Bool
  | [] => (r, false)
  | e :: rest =>
    if c = e.CountryCode then ({ r with cidrs := appendSlice r.cidrs e.Cidr }, true)
    else scanGeoIP c r rest

/-- The outer loop of `LoadGeoData` over `ipCode`. -/
def loadIPCodes (toUpper : GoString → GoString) (entries : List GeoIP) :
    List GoString → GeoRouter × List LogLine → GeoRouter × List LogLine
  | [], st => st
  | c :: cs, (r, log) =>
    let c1 := toUpper c
    let res := scanGeoIP c1 r entries
    if res.2 then loadIPCodes toUpper entries cs (res.1, log ++ [LogLine.geoIPLoaded c1])
    else loadIPCodes toUpper entries cs (res.1, log ++ [LogLine.geoIPNotFound c1])

/-- The inner loop of `LoadGeoData` over `geosite.GetEntry()`. -/
def scanGeoSite (c : GoString) (r : GeoRouter) : List GeoSite → GeoRouter × Bool
  | [] => (r, false)
  | e :: rest =>
    if c = e.CountryCode then ({ r with domains := appendSlice r.domains e.Domain }, true)
    else scanGeoSite c r rest

/-- The outer loop of `LoadGeoData` over `siteCode`. -/
def loadSiteCodes (toUpper : GoString → GoString) (entries : List GeoSite) :
    List GoString → GeoRouter × List LogLine → GeoRouter × List LogLine
  | [], st => st
  | c :: cs, (r, log) =>
    let c1 := toUpper c
    let res := scanGeoSite c1 r entries
    if res.2 then loadSiteCodes toUpper entries cs (res.1, log ++ [LogLine.geoSiteLoaded c1])
    else loadSiteCodes toUpper entries cs (res.1, log ++ [LogLine.geoSiteNotFound c1])

/-- The result of `LoadGeoData`: the router as the call leaves it, the
returned error (`none` for nil) and the lines logged. -/
structure LoadResult where
  router : GeoRouter
  err : Option Error
  log : List LogLine
  deriving DecidableEq, Repr

/-- The method `GeoRouter.LoadGeoData`, with `proto.Unmarshal` on the two blob types and
`strings.ToUpper` as parameters. -/
def LoadGeoData (unmarshalIP : Unmarshal GeoIP) (unmarshalSite : Unmarshal GeoSite)
    (toUpper : GoString → GoString) (r : GeoRouter)
    (geoipData : List Nat) (ipCode : List GoString)
    (geositeData : List Nat) (siteCode : List GoString) : LoadResult :=
  match unmarshalIP geoipData with
  | .error e => ⟨r, some e, []⟩
  | .ok geoip =>
    let st1 := loadIPCodes toUpper geoip ipCode (r, [])
    match unmarshalSite geositeData with
    | .error e => ⟨st1.1, some e, st1.2⟩
    | .ok geosite =>
      let st2 := loadSiteCodes toUpper geosite siteCode st1
      ⟨st2.1, none, st2.2⟩

/-! ## The obfuscation codec -/

/-- The AES-CTR keystream: the byte at each position of the stream that
`cipher.NewCTR(aes.NewCipher(key), iv)` XORs onto its input. -/
abbrev Keystream := List Nat → List Nat → Nat → Nat

/-- A `cipher.Stream` made by `cipher.NewCTR(block, iv)`: the key, the IV and
the number of keystream bytes consumed so far. -/
structure CTR where
  key : List Nat
  iv : List Nat
  pos : Nat
  deriving DecidableEq, Repr

/-- XOR of `src` with the values of `f` from position `i` on. -/
def xorFrom (f : Nat → Nat) : Nat → List Nat → List Nat
  | _, [] => []
  | i, b :: bs => (b ^^^ f i) :: xorFrom f (i + 1) bs

/-- Go `s.XORKeyStream(dst, src)`: the output and the advanced stream. -/
def XORKeyStream (ks : Keystream) (s : CTR) (src : List Nat) : List Nat × CTR :=
  (xorFrom (ks s.key s.iv) s.pos src, { s with pos := s.pos + src.length })

/-- One end of a `net.Conn`: `rx` are the chunks its successive `Read` calls
can deliver (the conn reports `io.EOF` when none is left), `tx` the bytes
written to it so far. -/
structure Conn where
  rx : List (List Nat)
  tx : List Nat
  deriving DecidableEq, Repr

/-- Go `conn.Read(buf)` with `len(buf) = m`: at most `m` bytes of the next
chunk; what does not fit stays for the next call. -/
def Conn.Read (c : Conn) (m : Nat) : (List Nat × Option Error) × Conn :=
  match c.rx with
  | [] => (([], some Error.eof), c)
  | chunk :: rest =>
    if chunk.length ≤ m then ((chunk, none), { c with rx := rest })
    else ((chunk.take m, none), { c with rx := chunk.drop m :: rest })

/-- Go `conn.Write(p)`. -/
def Conn.Write (c : Conn) (p : List Nat) : Conn :=
  { c with tx := c.tx ++ p }

/-- Modelled from the spec: `common.NewBufioReadWriter(conn)`, which is not
among the sources, as a `bufio.ReadWriter` over `conn`: `rbuf` is the part of
the reader's buffer not yet consumed, `wbuf` the bytes the writer holds back;
`rsize` and `wsize` are the two buffer sizes. -/
structure BufioReadWriter where
  conn : Conn
  rbuf : List Nat
  wbuf : List Nat
  rsize : Nat
  wsize : Nat
  deriving DecidableEq, Repr

/-- Modelled from the spec: `common.NewBufioReadWriter(conn)` with empty
buffers of the given sizes. -/
def NewBufioReadWriter (rsize wsize : Nat) (conn : Conn) : BufioReadWriter :=
  ⟨conn, [], [], rsize, wsize⟩

/-- Go `bufio.Reader.Read(p)` with `len(p) = n`: serves from the buffer; on an
empty buffer reads the conn once, directly into `p` when `p` is at least as
large as the buffer. -/
def BufioReadWriter.Read (b : BufioReadWriter) (n : Nat) :
    (List Nat × Option Error) × BufioReadWriter :=
  if n = 0 then (([], none), b)
  else if b.rbuf = [] then
    if b.rsize ≤ n then
      let res := b.conn.Read n
      (res.1, { b with conn := res.2 })
    else
      let res := b.conn.Read b.rsize
      if res.1.1 = [] then (([], res.1.2), { b with conn := res.2 })
      else ((res.1.1.take n, none), { b with conn := res.2, rbuf := res.1.1.drop n })
  else ((b.rbuf.take n, none), { b with rbuf := b.rbuf.drop n })

/-- Go `bufio.Writer.Flush()`. -/
def BufioReadWriter.Flush (b : BufioReadWriter) : BufioReadWriter :=
  { b with conn := b.conn.Write b.wbuf, wbuf := [] }

/-- Go `bufio.Writer.Write(p)`: `p` is held back while it fits the buffer;
otherwise the buffer is filled and flushed, or `p` is written through when
the buffer is empty. -/
def BufioReadWriter.Write (b : BufioReadWriter) (p : List Nat) : BufioReadWriter :=
  let avail := b.wsize - b.wbuf.length
  if avail < p.length then
    if b.wbuf = [] then { b with conn := b.conn.Write p }
    else
      let b1 := BufioReadWriter.Flush { b with wbuf := b.wbuf ++ p.take avail }
      let p1 := p.drop avail
      if b1.wsize < p1.length then { b1 with conn := b1.conn.Write p1 }
      else { b1 with wbuf := p1 }
  else { b with wbuf := b.wbuf ++ p }

/-- The struct `obfReadWriteCloser`: the CTR streams of its `StreamReader` and
`StreamWriter`, and the buffered stream both use. -/
structure obfReadWriteCloser where
  r : CTR
  w : CTR
  bufrw : BufioReadWriter
  deriving DecidableEq, Repr

/-- The method `obfReadWriteCloser.Read(p)` with `len(p) = n`, that is
`cipher.StreamReader.Read`: read, then XOR what was read. -/
def obfReadWriteCloser.Read (ks : Keystream) (rwc : obfReadWriteCloser) (n : Nat) :
    (List Nat × Option Error) × obfReadWriteCloser :=
  let res := rwc.bufrw.Read n
  let x := XORKeyStream ks rwc.r res.1.1
  ((x.1, res.1.2), { rwc with r := x.2, bufrw := res.2 })

/-- The method `obfReadWriteCloser.Write(p)`: `cipher.StreamWriter.Write` (XOR, then
write), then `Flush`. -/
def obfReadWriteCloser.Write (ks : Keystream) (rwc : obfReadWriteCloser) (p : List Nat) :
    obfReadWriteCloser :=
  let x := XORKeyStream ks rwc.w p
  { rwc with w := x.2, bufrw := (rwc.bufrw.Write x.1).Flush }

/-- The constructor `NewOutboundObfReadWriteCloser(key, conn)`; `iv` are the 16 bytes drawn
from `rand.Reader`. -/
def NewOutboundObfReadWriteCloser (rsize wsize : Nat) (iv : List Nat) (key : List Nat)
    (conn : Conn) : obfReadWriteCloser :=
  let bufrw := (NewBufioReadWriter rsize wsize conn).Write iv
  ⟨⟨key, iv, 0⟩, ⟨key, iv, 0⟩, bufrw⟩

/-- The constructor `NewInboundObfReadWriteCloser(key, conn)`: one `Read` into the zeroed
16-byte array `iv`, whose count of bytes read is dropped. -/
def NewInboundObfReadWriteCloser (rsize wsize : Nat) (key : List Nat) (conn : Conn) :
    Except Error obfReadWriteCloser :=
  let res := (NewBufioReadWriter rsize wsize conn).Read 16
  match res.1.2 with
  | some err => .error err
  | none =>
    let iv := res.1.1 ++ List.replicate (16 - res.1.1.length) 0
    .ok ⟨⟨key, iv, 0⟩, ⟨key, iv, 0⟩, res.2⟩

/-- A run of `Write` calls on a codec, one per element of `ws`. -/
def writeAll (ks : Keystream) (rwc : obfReadWriteCloser) : List (List Nat) → obfReadWriteCloser
  | [] => rwc
  | p :: ps => writeAll ks (rwc.Write ks p) ps

/-- A run of `Read` calls on a codec with buffers of the lengths `sizes`: the
bytes they return, in order, and the codec after them. -/
def readAll (ks : Keystream) (rwc : obfReadWriteCloser) : List Nat → List Nat × obfReadWriteCloser
  | [] => ([], rwc)
  | n :: ns =>
    let res := rwc.Read ks n
    let more := readAll ks res.2 ns
    (res.1.1 ++ more.1, more.2)

/-! ## Concrete values used in the statements -/

/-- A `regexp.Match` that rejects every pattern as invalid. -/
def noRegexp : RegexpMatch := fun _ _ => none

/-- A router that holds the domain rules `ds` and nothing else. -/
def domainRouter (ds : List Domain) : GeoRouter :=
  ⟨some ds, none, Policy.Proxy, Policy.Bypass, Strategy.AsIs⟩

/-! ## The reading of the CIDR claims -/

/-- The two address families. -/
inductive Family where
  | v4
  | v6
  deriving DecidableEq, Repr

/-- The address family of a `net.IP`: IPv4 for the 4-byte form and for the
16-byte form of an IPv4 address, IPv6 for any other 16 bytes, none for a
slice of another length. -/
def familyOf (ip : IP) : Option Family :=
  if (To4 ip).isSome then some Family.v4
  else if ip.length = 16 then some Family.v6
  else none

/-- The bit width of an address family. -/
def Family.bits : Family → Nat
  | Family.v4 => 32
  | Family.v6 => 128

/-- The bytes of an address in the shortest form of its family: 4 bytes for
IPv4, 16 for IPv6. -/
def addrBytes (ip : IP) : List Nat :=
  match To4 ip with
  | some x => x
  | none => ip

/-- Bit `i` of a byte sequence, counted from the most significant bit of the
first byte. -/
def bitAt (bs : List Nat) (i : Nat) : Bool :=
  (bs.getD (i / 8) 0).testBit (7 - i % 8)

/-- The CIDR rule `c` covers the address `ip`: both have the same address
family, the rule length does not exceed the bit width of that family, and
the first `c.Prefix` bits of the two addresses agree. -/
def cidrCovers (c : CIDR) (ip : IP) : Prop :=
  ∃ f : Family, familyOf ip = some f ∧ familyOf c.Ip = some f ∧ c.Prefix ≤ f.bits ∧
    ∀ i, i < c.Prefix → bitAt (addrBytes c.Ip) i = bitAt (addrBytes ip) i

/-- Every byte of the sequence is below 256. -/
def isBytes (bs : List Nat) : Prop := ∀ b ∈ bs, b < 256

instance (bs : List Nat) : Decidable (isBytes bs) := by
  unfold isBytes
  infer_instance

/-- The mask byte that `net.CIDRMask` writes when `k` one bits are left. -/
def maskByte (k : Nat) : Nat :=
  if 8 ≤ k then 0xff else 0xff - (0xff >>> k)

/-- A resolver that yields the address `a` for every domain. -/
def resolveTo (a : IP) : Resolver := fun _ => .ok a

/-- A resolver that fails for every domain. -/
def resolveFail : Resolver := fun _ => .error (Error.resolve 0)

/-- A router with the CIDR rule `1.2.3.4/32` and a nil slice of domain rules,
with match policy `Bypass` and non-match policy `Proxy`. -/
def cidrOnlyRouter (s : Strategy) : GeoRouter :=
  ⟨none, some [⟨[1, 2, 3, 4], 32⟩], Policy.Bypass, Policy.Proxy, s⟩

/-- A router with the CIDR rule `10.0.0.0/8` and the suffix rule
`example.com`, with match policy `Bypass` and non-match policy `Proxy`. -/
def sampleRouter (s : Strategy) : GeoRouter :=
  ⟨some [⟨DomainType.Domain, bytes "example.com"⟩], some [⟨[10, 0, 0, 0], 8⟩],
    Policy.Bypass, Policy.Proxy, s⟩

/-- A domain-typed request. -/
def domainRequest (d : GoString) : Request := ⟨AddressType.DomainName, d, []⟩

/-- An IP-typed request, with the tag that `routeRequestByIP` gives it. -/
def ipRequest (a : IP) : Request :=
  ⟨if (To4 a).isSome then AddressType.IPv4 else AddressType.IPv6, [], a⟩

/-- The tag `t` matches some GeoIP entry: an entry has the upper-cased tag as
its country code. -/
def ipTagFound (toUpper : GoString → GoString) (entries : List GeoIP) (t : GoString) : Bool :=
  entries.any (fun e => decide (toUpper t = e.CountryCode))

/-- The tag `t` matches some GeoSite entry. -/
def siteTagFound (toUpper : GoString → GoString) (entries : List GeoSite) (t : GoString) : Bool :=
  entries.any (fun e => decide (toUpper t = e.CountryCode))

/-- Upper-casing of ASCII letters, the effect of `strings.ToUpper` on ASCII
strings. -/
def asciiUpper (s : GoString) : GoString :=
  s.map (fun b => if 97 ≤ b ∧ b ≤ 122 then b - 32 else b)

/-- A GeoIP decoder: the empty blob fails to decode, any other blob holds the
entries `CN` (with `1.2.3.0/24`) and `US` (with `8.8.8.0/24`). -/
def sampleUnmarshalIP : Unmarshal GeoIP := fun data =>
  if data = [] then .error (Error.unmarshal 1)
  else .ok [⟨bytes "CN", [⟨[1, 2, 3, 0], 24⟩]⟩, ⟨bytes "US", [⟨[8, 8, 8, 0], 24⟩]⟩]

/-- A GeoSite decoder: the empty blob fails to decode, any other blob holds
the entries `CN` (with the suffix rule `cn`) and `US` (with the suffix rule
`us`). -/
def sampleUnmarshalSite : Unmarshal GeoSite := fun data =>
  if data = [] then .error (Error.unmarshal 2)
  else .ok [⟨bytes "CN", [⟨DomainType.Domain, bytes "cn"⟩]⟩,
    ⟨bytes "US", [⟨DomainType.Domain, bytes "us"⟩]⟩]

/-- The constructor `NewGeoRouter`: a router without rules (the error it returns is always nil). -/
def NewGeoRouter (matchPolicy nonMatchPolicy : Policy) (strategy : Strategy) : GeoRouter :=
  ⟨none, none, matchPolicy, nonMatchPolicy, strategy⟩

/-- The bytes a buffered stream has yet to deliver to its reader: those in
its read buffer, then the chunks still to come from the conn. -/
def BufioReadWriter.remaining (b : BufioReadWriter) : List Nat :=
  b.rbuf ++ b.conn.rx.flatten

/-- A bound on the number of non-empty reads a buffered stream still needs to
be drained: the bytes left plus the chunks left. -/
def BufioReadWriter.potential (b : BufioReadWriter) : Nat :=
  b.remaining.length + b.conn.rx.length

/-- A keystream for the examples. -/
def sampleKeystream : Keystream := fun key iv i => (key.sum + 3 * iv.sum + 7 * i + 5) % 256

/-- The bytes that an outbound codec with key `7, ..., 7` and IV `0, ..., 15`
emits for the writes `[104, 105]` and `[33]`. -/
def sampleWire : List Nat :=
  (writeAll sampleKeystream
    (NewOutboundObfReadWriteCloser 4096 4096 (List.range 16) (List.replicate 16 7) ⟨[], []⟩)
    [[104, 105], [33]]).bufrw.conn.tx

/-! ## The inbound WebSocket layer -/

/-- Modelled from the spec: `common.RewindConn`, which is not among the
sources: a byte stream over `conn` with the buffer `buf` that records reads
while `buffering` is on, up to `bufferSize` bytes, and the flag `rewound`
that makes the next reads drain the buffer first. -/
structure RewindConn where
  conn : Conn
  buf : List Nat
  bufferSize : Nat
  buffering : Bool
  rewound : Bool
  deriving DecidableEq, Repr

/-- Modelled from the spec: `common.NewRewindConn(conn)`, a stream that does
not record yet. -/
def NewRewindConn (conn : Conn) : RewindConn := ⟨conn, [], 0, false, false⟩

/-- Modelled from the spec: `rewindConn.R.SetBufferSize(size)`, which turns
recording on with room for `size` bytes, and off for size 0. -/
def RewindConn.SetBufferSize (rc : RewindConn) (size : Nat) : RewindConn :=
  { rc with bufferSize := size, buffering := decide (0 < size) }

/-- Modelled from the spec: `rewindConn.R.Rewind()`, after which reads drain
the buffer first. -/
def RewindConn.Rewind (rc : RewindConn) : RewindConn :=
  { rc with rewound := true }

/-- Modelled from the spec: `rewindConn.R.StopBuffering()`, which freezes the
buffer. -/
def RewindConn.StopBuffering (rc : RewindConn) : RewindConn :=
  { rc with buffering := false }

/-- What the code reads of an `http.Request`: `URL.Path` and
`Header.Get("Upgrade")`. -/
structure HttpRequest where
  Path : GoString
  Upgrade : GoString
  deriving DecidableEq, Repr

/-- The call `http.ReadRequest(bufrw.Reader)` on a buffered reader over the
rewindable stream: the request or the error, and the stream as the reads of
the call leave it. -/
abbrev ReadRequest := RewindConn → Except Error HttpRequest × RewindConn

/-- The fields of `conf.GlobalConfig` that the first part of
`NewInboundWebsocket` reads: `Websocket.Path` and `RemoteAddress`. -/
structure GlobalConfig where
  WebsocketPath : GoString
  RemoteAddress : GoString
  deriving DecidableEq, Repr

/-- A `shadow.Scapegoat` as `NewInboundWebsocket` fills it. -/
structure Scapegoat where
  Conn : RewindConn
  ShadowAddress : GoString
  Info : GoString
  deriving DecidableEq, Repr

/-- How the first part of `NewInboundWebsocket` ends: with `return nil, nil`
(not an HTTP request), with `return nil, err` after the connection was handed
to the scapegoat, or by going on to serve the upgrade of `req` on the stream
`rc` (the rest of the function, from `rewindConn.R.SetBufferSize(0)` on). -/
inductive WsPhase where
  | notHTTP
  | diverted (err : Error)
  | upgrade (req : HttpRequest) (rc : RewindConn)
  deriving DecidableEq, Repr

/-- The state after the first part of `NewInboundWebsocket`: how it ended,
the scapegoats submitted to the shadow manager so far (modelled from the spec:
`shadowMan.SubmitScapegoat` appends to the queue of the diverter), and the
rewindable stream once the deferred `StopBuffering` has run. -/
structure WsResult where
  phase : WsPhase
  submitted : List Scapegoat
  rewindConn : RewindConn
  deriving DecidableEq, Repr

/-- The function `NewInboundWebsocket` up to the point where it serves the
upgrade; `remoteAddr` is `conn.RemoteAddr().String()`, `submitted` the
scapegoats that the shadow manager holds at the call. -/
def NewInboundWebsocket (readRequest : ReadRequest) (toLower : GoString → GoString)
    (remoteAddr : GoString) (conn : Conn) (config : GlobalConfig)
    (submitted : List Scapegoat) : WsResult :=
  let rewindConn := (NewRewindConn conn).SetBufferSize 512
  let res := readRequest rewindConn
  match res.1 with
  | .error _ => ⟨WsPhase.notHTTP, submitted, res.2.StopBuffering⟩
  | .ok httpRequest =>
    if httpRequest.Path ≠ config.WebsocketPath
        ∨ toLower httpRequest.Upgrade ≠ bytes "websocket" then
      let rc := res.2.Rewind
      let msg := bytes "Invalid websocket request from " ++ remoteAddr
      ⟨WsPhase.diverted (Error.text msg),
        submitted ++ [⟨rc, config.RemoteAddress, msg⟩], rc.StopBuffering⟩
    else
      ⟨WsPhase.upgrade httpRequest (res.2.SetBufferSize 0), submitted, res.2.SetBufferSize 0⟩

/-- Equality of two strings ignoring case, as equality of their lower-cased
forms. -/
def EqualFold (toLower : GoString → GoString) (a b : GoString) : Prop :=
  toLower a = toLower b

instance (toLower : GoString → GoString) (a b : GoString) :
    Decidable (EqualFold toLower a b) := by
  unfold EqualFold
  infer_instance

/-- Lower-casing of ASCII letters, the effect of `strings.ToLower` on ASCII
strings. -/
def asciiLower (s : GoString) : GoString :=
  s.map (fun b => if 65 ≤ b ∧ b ≤ 90 then b + 32 else b)

/-- A reader of requests for the examples: it takes the next chunk of the
conn as the request, recording it; the bytes up to the first space are the
path, the rest is the `Upgrade` header; no chunk is no request. -/
def sampleReadRequest : ReadRequest := fun rc =>
  match rc.conn.rx with
  | [] => (.error (Error.parse 0), rc)
  | chunk :: rest =>
    (.ok ⟨chunk.takeWhile (fun b => b != 32), (chunk.dropWhile (fun b => b != 32)).drop 1⟩,
      { rc with conn := { rc.conn with rx := rest }, buf := rc.buf ++ chunk })

/-! ## The transparent-proxy listener -/

/-- One result of `n.listener.Accept()`: a connection, or an error together
with whether `n.ctx.Done()` is ready when the loop examines the error. -/
inductive AcceptResult where
  | conn (id : Nat)
  | error (e : Error) (cancelled : Bool)
  deriving DecidableEq, Repr

/-- How `listenTCP` stands after the given results of `Accept`: it returned
because `net.Listen` failed, because an error met a pending cancellation, or
because an error met no cancellation; or it waits in `Accept`. -/
inductive ListenExit where
  | listenFailed
  | cancelled
  | acceptFailed
  | waiting
  deriving DecidableEq, Repr

/-- What a run of `listenTCP` has done: the connections handed to
`handleConn`, the errors sent on `errChan`, the number of calls of `Accept`
that returned, and how the loop stands. -/
structure ListenTrace where
  handled : List Nat
  errChan : List Error
  accepts : Nat
  exit : ListenExit
  deriving DecidableEq, Repr

/-- The `for` loop of `NAT.listenTCP` over the results of its calls of
`Accept`. -/
def acceptLoop : List AcceptResult → ListenTrace → ListenTrace
  | [], t => { t with exit := ListenExit.waiting }
  | AcceptResult.conn id :: rest, t =>
    acceptLoop rest { t with handled := t.handled ++ [id], accepts := t.accepts + 1 }
  | AcceptResult.error e cancelled :: _, t =>
    if cancelled then { t with accepts := t.accepts + 1, exit := ListenExit.cancelled }
    else { t with errChan := t.errChan ++ [e], accepts := t.accepts + 1,
                  exit := ListenExit.acceptFailed }

/-- The method `NAT.listenTCP`; `listen` is the error of `net.Listen`, if
any, and `results` what the calls of `Accept` return, in order. -/
def listenTCP (listen : Option Error) (results : List AcceptResult) : ListenTrace :=
  match listen with
  | some err => ⟨[], [err], 0, ListenExit.listenFailed⟩
  | none => acceptLoop results ⟨[], [], 0, ListenExit.waiting⟩

/-- The connections among the results of `Accept`. -/
def acceptedConns : List AcceptResult → List Nat
  | [] => []
  | AcceptResult.conn id :: rest => id :: acceptedConns rest
  | AcceptResult.error _ _ :: rest => acceptedConns rest

/-! ## The reading of the claim on invalid patterns -/

/-- The test that `matchDomain` makes of one rule: the rule matches
`fulldomain`. -/
def ruleHit (re : RegexpMatch) (fulldomain : GoString) (d : Domain) : Bool :=
  match d.type with
  | .Domain | .Full => suffixHit fulldomain d.value
  | .Plain => Contains fulldomain d.value
  | .Regex => re d.value fulldomain == some true
  | .Other _ => false

/-- The rule is a `Regex` rule whose pattern does not compile. -/
def ruleInvalid (re : RegexpMatch) (fulldomain : GoString) (d : Domain) : Bool :=
  match d.type with
  | .Regex => re d.value fulldomain == none
  | _ => false

/-- A `regexp.Match` for the examples: the pattern `(` does not compile, any
other pattern matches the strings that contain it. -/
def sampleRegexp : RegexpMatch := fun pattern b =>
  if pattern = bytes "(" then none else some (Contains b pattern)

/-! ## Facts about the string functions -/

theorem HasPrefix_self (s : GoString) : HasPrefix s s = true := by
  simp [HasPrefix]

theorem HasSuffix_self (s : GoString) : HasSuffix s s = true := by
  simp [HasSuffix]

theorem Index_self (s : GoString) : Index s s = 0 := by
  cases s with
  | nil => simp [Index, HasPrefix]
  | cons c t => simp [Index, HasPrefix_self]

theorem HasSuffix_isSuffix {s x : GoString} (h : HasSuffix s x = true) : x <:+ s := by
  simp only [HasSuffix, Bool.and_eq_true, decide_eq_true_eq, beq_iff_eq] at h
  rw [← h.2]
  exact List.drop_suffix _ _

theorem suffixHit_self (s : GoString) : suffixHit s s = true := by
  simp [suffixHit, HasSuffix_self, Index_self]

theorem suffixHit_isSuffix {s x : GoString} (h : suffixHit s x = true) : x <:+ s := by
  unfold suffixHit at h
  split at h
  · rename_i hs
    exact HasSuffix_isSuffix hs
  · simp at h

/-- On rules that are all of type `Domain` or `Full`, the loop of
`matchDomain` is the disjunction of `suffixHit` over the rule values. -/
theorem matchDomainLoop_suffix (re : RegexpMatch) (f : GoString) (ds : List Domain)
    (h : ∀ d ∈ ds, d.type = DomainType.Domain ∨ d.type = DomainType.Full) :
    matchDomainLoop re f ds = ds.any (fun d => suffixHit f d.value) := by
  induction ds with
  | nil => simp [matchDomainLoop]
  | cons d rest ih =>
    have hd := h d (List.mem_cons_self _ _)
    have ih1 := ih (fun e he => h e (List.mem_cons_of_mem _ he))
    rcases hd with hd | hd <;>
      · rw [matchDomainLoop.eq_def]
        simp only [hd, List.any_cons]
        cases hs : suffixHit f d.value <;> simp [ih1]

/-! ## Domain rules: suffix and full rules -/

/-- C1: with the single suffix rule `example.com`, `matchDomain` accepts
`example.com.notexample.com`, which is `x + rule` for the non-empty
`x = example.com.not` that does not end in a dot: the byte before the
trailing occurrence of the rule is `t`, but the code inspects the byte before
the first occurrence. In the other direction, with the single suffix rule
`cn` it rejects `xcn.cn`, whose trailing occurrence of the rule does follow
a dot. -/
theorem C1_suffix_rule_checks_first_occurrence :
    bytes "example.com.not" ++ bytes "example.com" = bytes "example.com.notexample.com"
    ∧ bytes "example.com.not" ≠ []
    ∧ (bytes "example.com.not").getLast? ≠ some 46
    ∧ matchDomain noRegexp (domainRouter [⟨DomainType.Domain, bytes "example.com"⟩])
        (bytes "example.com.notexample.com") = true
    ∧ bytes "xcn." ++ bytes "cn" = bytes "xcn.cn"
    ∧ matchDomain noRegexp (domainRouter [⟨DomainType.Domain, bytes "cn"⟩])
        (bytes "xcn.cn") = false := by
  decide

/-- C2, as stated, fails: with the single `Full` rule `example.com`,
`matchDomain` accepts `www.example.com`, which equals no rule value. -/
theorem C2_full_rule_not_exact :
    ¬ (matchDomain noRegexp (domainRouter [⟨DomainType.Full, bytes "example.com"⟩])
          (bytes "www.example.com") = true
        ↔ ∃ d ∈ [(⟨DomainType.Full, bytes "example.com"⟩ : Domain)],
            bytes "www.example.com" = d.value) := by
  decide

/-- C2, amended: on a router whose domain rules are all of type `Full`,
`matchDomain` returns true whenever `fulldomain` equals the value of some
rule; it returns true only if the value of some rule is a suffix of
`fulldomain`; and it returns what it returns when every rule has type
`Domain` instead. -/
theorem C2_full_rules_as_suffix_rules (re : RegexpMatch) (r : GeoRouter)
    (fulldomain : GoString)
    (hfull : ∀ d ∈ elems r.domains, d.type = DomainType.Full) :
    ((∃ d ∈ elems r.domains, fulldomain = d.value) → matchDomain re r fulldomain = true)
    ∧ (matchDomain re r fulldomain = true →
        ∃ d ∈ elems r.domains, d.value <:+ fulldomain)
    ∧ matchDomain re r fulldomain
        = matchDomain re
            { r with domains := some ((elems r.domains).map
                (fun d => ⟨DomainType.Domain, d.value⟩)) } fulldomain := by
  have h1 := matchDomainLoop_suffix re fulldomain (elems r.domains)
    (fun d hd => Or.inr (hfull d hd))
  have h2 := matchDomainLoop_suffix re fulldomain
    ((elems r.domains).map (fun d => (⟨DomainType.Domain, d.value⟩ : Domain)))
    (by
      intro d hd
      rw [List.mem_map] at hd
      obtain ⟨e, _, rfl⟩ := hd
      exact Or.inl rfl)
  refine ⟨?_, ?_, ?_⟩
  · rintro ⟨d, hd, rfl⟩
    rw [matchDomain, h1, List.any_eq_true]
    exact ⟨d, hd, suffixHit_self _⟩
  · intro h
    rw [matchDomain, h1, List.any_eq_true] at h
    obtain ⟨d, hd, hs⟩ := h
    exact ⟨d, hd, suffixHit_isSuffix hs⟩
  · show matchDomainLoop re fulldomain (elems r.domains)
      = matchDomainLoop re fulldomain
          ((elems r.domains).map (fun d => (⟨DomainType.Domain, d.value⟩ : Domain)))
    rw [h1, h2, List.any_map]
    rfl

/-- C2, amended, at the rule `example.com` and the name `www.example.com`. -/
theorem C2_full_rules_as_suffix_rules_witness :
    (∀ d ∈ elems (domainRouter [⟨DomainType.Full, bytes "example.com"⟩]).domains,
        d.type = DomainType.Full)
    ∧ matchDomain noRegexp (domainRouter [⟨DomainType.Full, bytes "example.com"⟩])
        (bytes "www.example.com")
      = matchDomain noRegexp
          { domainRouter [⟨DomainType.Full, bytes "example.com"⟩] with
            domains := some ((elems (domainRouter
              [⟨DomainType.Full, bytes "example.com"⟩]).domains).map
                (fun d => ⟨DomainType.Domain, d.value⟩)) }
          (bytes "www.example.com") :=
  ⟨by decide,
   (C2_full_rules_as_suffix_rules noRegexp
      (domainRouter [⟨DomainType.Full, bytes "example.com"⟩])
      (bytes "www.example.com") (by decide)).2.2⟩

/-! ## Facts about masks -/

theorem maskBytes_succ (l n : Nat) :
    maskBytes (l + 1) n = maskByte n :: maskBytes l (n - 8) := by
  rw [maskBytes, maskByte]
  by_cases h : 8 ≤ n
  · simp [h]
  · have h0 : n - 8 = 0 := by omega
    simp [h, h0]

theorem maskBytes_length (l n : Nat) : (maskBytes l n).length = l := by
  induction l generalizing n with
  | zero => simp [maskBytes]
  | succ l ih => simp [maskBytes_succ, ih]

theorem maskBytes_getD (l n i : Nat) (h : i < l) :
    (maskBytes l n).getD i 0 = maskByte (n - 8 * i) := by
  induction l generalizing n i with
  | zero => omega
  | succ l ih =>
    rw [maskBytes_succ]
    cases i with
    | zero => simp
    | succ i =>
      simp only [List.getD_cons_succ]
      rw [ih (n - 8) i (by omega)]
      congr 1
      omega

theorem maskByte_lt (k : Nat) : maskByte k < 256 := by
  unfold maskByte
  split
  · decide
  · exact Nat.lt_of_le_of_lt (Nat.sub_le _ _) (by decide)

theorem testBit_maskByte (k t : Nat) :
    (maskByte k).testBit t = decide (t < 8 ∧ 8 ≤ k + t) := by
  by_cases ht : t < 8
  · by_cases hk : 8 ≤ k
    · have : maskByte k = 2 ^ 8 - 1 := by simp [maskByte, hk]
      rw [this, Nat.testBit_two_pow_sub_one]
      simp [ht]
      omega
    · have hk8 : k < 8 := by omega
      interval_cases k <;> interval_cases t <;> decide
  · have h1 : (maskByte k).testBit t = false := by
      apply Nat.testBit_lt_two_pow
      calc maskByte k < 256 := maskByte_lt k
        _ = 2 ^ 8 := by norm_num
        _ ≤ 2 ^ t := Nat.pow_le_pow_right (by norm_num) (by omega)
    simp [h1, ht]

theorem land_maskByte_eq_iff (a b k : Nat) :
    a &&& maskByte k = b &&& maskByte k ↔
      ∀ t, t < 8 → 8 ≤ k + t → a.testBit t = b.testBit t := by
  constructor
  · intro h t ht hk
    have h1 := congrArg (fun x => Nat.testBit x t) h
    simp only [Nat.testBit_and, testBit_maskByte] at h1
    simpa [ht, hk] using h1
  · intro h
    apply Nat.eq_of_testBit_eq
    intro t
    simp only [Nat.testBit_and, testBit_maskByte]
    by_cases hc : t < 8 ∧ 8 ≤ k + t
    · simp [hc, h t hc.1 hc.2]
    · simp [hc]

/-- Byte-wise agreement under the mask of length `n` is agreement on the
first `n` bits. -/
theorem masked_eq_iff_bits (a q : List Nat) (L n : Nat) (hn : n ≤ 8 * L) :
    (∀ i, i < L → a.getD i 0 &&& maskByte (n - 8 * i) = q.getD i 0 &&& maskByte (n - 8 * i))
      ↔ ∀ t, t < n → bitAt a t = bitAt q t := by
  constructor
  · intro h t ht
    have hi : t / 8 < L := by omega
    have h1 := (land_maskByte_eq_iff _ _ _).1 (h (t / 8) hi) (7 - t % 8) (by omega) (by omega)
    exact h1
  · intro h i hi
    rw [land_maskByte_eq_iff]
    intro s hs hk
    have h1 := h (8 * i + (7 - s)) (by omega)
    unfold bitAt at h1
    have e1 : (8 * i + (7 - s)) / 8 = i := by omega
    have e2 : 7 - (8 * i + (7 - s)) % 8 = s := by omega
    rw [e1, e2] at h1
    exact h1

/-! ## Facts about addresses -/

theorem list_length_four {l : List Nat} (h : l.length = 4) :
    ∃ a b c d, l = [a, b, c, d] := by
  match l, h with
  | [a, b, c, d], _ => exact ⟨a, b, c, d, rfl⟩

theorem list_length_sixteen {l : List Nat} (h : l.length = 16) :
    ∃ a0 a1 a2 a3 a4 a5 a6 a7 a8 a9 a10 a11 a12 a13 a14 a15,
      l = [a0, a1, a2, a3, a4, a5, a6, a7, a8, a9, a10, a11, a12, a13, a14, a15] := by
  match l, h with
  | [a0, a1, a2, a3, a4, a5, a6, a7, a8, a9, a10, a11, a12, a13, a14, a15], _ =>
    exact ⟨a0, a1, a2, a3, a4, a5, a6, a7, a8, a9, a10, a11, a12, a13, a14, a15, rfl⟩

theorem To4_of_length_four {ip : IP} (h : ip.length = 4) : To4 ip = some ip := by
  simp [To4, h]

theorem To4_some_length {ip x : IP} (h : To4 ip = some x) : x.length = 4 := by
  unfold To4 at h
  split at h
  · rename_i h4
    cases h
    exact h4
  · split at h
    · rename_i h16
      cases h
      simp [h16.1]
    · cases h

theorem To4_some_cases {ip x : IP} (h : To4 ip = some x) :
    (ip.length = 4 ∧ x = ip) ∨
      (ip.length = 16 ∧ ip.take 12 = v4InV6Header ∧ x = ip.drop 12) := by
  unfold To4 at h
  split at h
  · rename_i h4
    cases h
    exact Or.inl ⟨h4, rfl⟩
  · split at h
    · rename_i h16
      cases h
      obtain ⟨hl, hz, h10, h11⟩ := h16
      obtain ⟨a0, a1, a2, a3, a4, a5, a6, a7, a8, a9, a10, a11, a12, a13, a14, a15, rfl⟩ :=
        list_length_sixteen hl
      simp [isZeros] at hz h10 h11
      obtain ⟨z0, z1, z2, z3, z4, z5, z6, z7, z8, z9⟩ := hz
      subst z0 z1 z2 z3 z4 z5 z6 z7 z8 z9 h10 h11
      exact Or.inr ⟨rfl, rfl, rfl⟩
    · cases h

theorem To4_none_length {ip : IP} (h : To4 ip = none) : ip.length ≠ 4 := by
  intro h4
  rw [To4_of_length_four h4] at h
  cases h

theorem networkNumberAndMask_length (a m : List Nat) :
    (networkNumberAndMask a m).1.length = 0 ∨ (networkNumberAndMask a m).1.length = 4 ∨
      (networkNumberAndMask a m).1.length = 16 := by
  unfold networkNumberAndMask
  cases h : To4 a with
  | some x =>
    have hx := To4_some_length h
    simp only []
    split <;> split <;> simp_all
  | none =>
    simp only []
    by_cases h16 : a.length = 16
    · simp only [h16, ne_eq, not_true_eq_false, ite_false]
      split <;> split <;> simp_all
    · simp [h16]

theorem CIDRMask_v4 (n : Nat) :
    CIDRMask n (8 * 4) = if n ≤ 32 then maskBytes 4 n else [] := by
  unfold CIDRMask
  by_cases h : n ≤ 32
  · have h1 : ¬ n > 32 := by omega
    simp [h]
  · have h1 : n > 32 := by omega
    simp [h, h1]

theorem CIDRMask_v6 (n : Nat) :
    CIDRMask n (8 * 16) = if n ≤ 128 then maskBytes 16 n else [] := by
  unfold CIDRMask
  by_cases h : n ≤ 128
  · have h1 : ¬ n > 128 := by omega
    simp [h]
  · have h1 : n > 128 := by omega
    simp [h, h1]

theorem getD_zipWith_land (a m : List Nat) (i : Nat) (ha : i < a.length) (hm : i < m.length) :
    (List.zipWith (fun x y => x &&& y) a m).getD i 0 = a.getD i 0 &&& m.getD i 0 := by
  induction a generalizing m i with
  | nil => simp at ha
  | cons x xs ih =>
    cases m with
    | nil => simp at hm
    | cons y ys =>
      cases i with
      | zero => simp
      | succ i =>
        simp only [List.zipWith_cons_cons, List.getD_cons_succ]
        exact ih ys i (by simpa using ha) (by simpa using hm)

theorem Mask_same_length {ip mask : List Nat} (h : ip.length = mask.length) :
    Mask ip mask = List.zipWith (fun x y => x &&& y) ip mask := by
  unfold Mask
  have c1 : ¬ (mask.length = 16 ∧ ip.length = 4 ∧ allFF (mask.take 12) = true) := by
    rintro ⟨h1, h2, _⟩
    omega
  simp only [c1, if_false]
  have c2 : ¬ (mask.length = 4 ∧ ip.length = 16 ∧ ip.take 12 = v4InV6Header) := by
    rintro ⟨h1, h2, _⟩
    omega
  simp only [c2, if_false]
  simp [h]

theorem Mask_mapped {ip mask : List Nat} (hl : ip.length = 16)
    (hh : ip.take 12 = v4InV6Header) (hm : mask.length = 4) :
    Mask ip mask = List.zipWith (fun x y => x &&& y) (ip.drop 12) mask := by
  unfold Mask
  have c1 : ¬ (mask.length = 16 ∧ ip.length = 4 ∧ allFF (mask.take 12) = true) := by
    rintro ⟨h1, h2, _⟩
    omega
  simp only [c1, if_false]
  simp [hl, hh, hm]

theorem Mask_length_ne {ip mask : List Nat} (h : ip.length ≠ mask.length)
    (h4 : ip.length ≠ 4) (hm : mask.length ≠ 4) : Mask ip mask = [] := by
  unfold Mask
  have c1 : ¬ (mask.length = 16 ∧ ip.length = 4 ∧ allFF (mask.take 12) = true) := by
    rintro ⟨_, h2, _⟩
    exact h4 h2
  simp only [c1, if_false]
  have c2 : ¬ (mask.length = 4 ∧ ip.length = 16 ∧ ip.take 12 = v4InV6Header) := by
    rintro ⟨h1, _, _⟩
    exact hm h1
  simp only [c2, if_false]
  simp [h]

theorem Mask_nil_mask (ip : List Nat) : Mask ip [] = [] := by
  simp [Mask]

theorem networkNumberAndMask_nil (m : List Nat) : networkNumberAndMask [] m = ([], []) := by
  simp [networkNumberAndMask, To4]

theorem networkNumberAndMask_four {a m : List Nat} (ha : a.length = 4) (hm : m.length = 4) :
    networkNumberAndMask a m = (a, m) := by
  simp [networkNumberAndMask, To4_of_length_four ha, ha, hm]

theorem networkNumberAndMask_sixteen {a m : List Nat} (ha : a.length = 16)
    (h4 : To4 a = none) (hm : m.length = 16) :
    networkNumberAndMask a m = (a, m) := by
  simp [networkNumberAndMask, h4, ha, hm]

theorem IPNetContains_eq (a m ip : List Nat) :
    IPNetContains a m ip =
      if (addrBytes ip).length ≠ (networkNumberAndMask a m).1.length then false
      else (List.range (addrBytes ip).length).all (fun i =>
        (networkNumberAndMask a m).1.getD i 0 &&& (networkNumberAndMask a m).2.getD i 0
          == (addrBytes ip).getD i 0 &&& (networkNumberAndMask a m).2.getD i 0) := by
  rfl

theorem IPNetContains_length_ne {a m ip : List Nat}
    (h : (addrBytes ip).length ≠ (networkNumberAndMask a m).1.length) :
    IPNetContains a m ip = false := by
  rw [IPNetContains_eq]
  simp [h]

/-- The comparison loop of `Contains` on a masked rule address `a`, a mask `m`
and a request address `q` of one length. -/
theorem IPNetContains_masked {a m q ip : List Nat} {L : Nat}
    (hq : addrBytes ip = q) (ha : a.length = L) (hm : m.length = L) (hql : q.length = L)
    (hnm : networkNumberAndMask (List.zipWith (fun x y => x &&& y) a m) m
      = (List.zipWith (fun x y => x &&& y) a m, m)) :
    IPNetContains (List.zipWith (fun x y => x &&& y) a m) m ip = true ↔
      ∀ i, i < L → a.getD i 0 &&& m.getD i 0 = q.getD i 0 &&& m.getD i 0 := by
  rw [IPNetContains_eq, hnm, hq]
  have hz : (List.zipWith (fun x y => x &&& y) a m).length = L := by simp [ha, hm]
  simp only [hz, hql, ne_eq, not_true_eq_false, if_false, List.all_eq_true, List.mem_range,
    beq_iff_eq]
  constructor
  · intro h i hi
    have h1 := h i hi
    rw [getD_zipWith_land a m i (by omega) (by omega), Nat.and_assoc, Nat.and_self] at h1
    exact h1
  · intro h i hi
    rw [getD_zipWith_land a m i (by omega) (by omega), Nat.and_assoc, Nat.and_self]
    exact h i hi

theorem byte_land_maskByte_full {a k : Nat} (ha : a < 256) (h : a &&& maskByte k = 0xff) :
    a = 0xff ∧ 8 ≤ k := by
  have hb : ∀ t, t < 8 → a.testBit t = true ∧ (maskByte k).testBit t = true := by
    intro t ht
    have h1 := congrArg (fun x => Nat.testBit x t) h
    have e : (0xff : Nat) = 2 ^ 8 - 1 := by norm_num
    simp only [Nat.testBit_and, e, Nat.testBit_two_pow_sub_one, ht, decide_True,
      Bool.and_eq_true] at h1
    exact h1
  constructor
  · apply Nat.eq_of_testBit_eq
    intro t
    have e : (0xff : Nat) = 2 ^ 8 - 1 := by norm_num
    rw [e, Nat.testBit_two_pow_sub_one]
    by_cases ht : t < 8
    · simp [ht, (hb t ht).1]
    · have : a.testBit t = false := by
        apply Nat.testBit_lt_two_pow
        calc a < 256 := ha
          _ = 2 ^ 8 := by norm_num
          _ ≤ 2 ^ t := Nat.pow_le_pow_right (by norm_num) (by omega)
      simp [ht, this]
  · have h0 := (hb 0 (by norm_num)).2
    rw [testBit_maskByte] at h0
    simp at h0
    exact h0

theorem byte_land_full_zero {a : Nat} (ha : a < 256) (h : a &&& 0xff = 0) : a = 0 := by
  have e : (0xff : Nat) = 2 ^ 8 - 1 := by norm_num
  rw [e, Nat.and_pow_two_sub_one_eq_mod] at h
  omega

theorem maskByte_full {k : Nat} (h : 8 ≤ k) : maskByte k = 0xff := by
  simp [maskByte, h]

/-- Masking an address that is not IPv4 never yields the 16-byte form of an
IPv4 address. -/
theorem To4_masked_none {c : IP} {n : Nat} (hc : To4 c = none) (hl : c.length = 16)
    (hb : isBytes c) :
    To4 (List.zipWith (fun x y => x &&& y) c (maskBytes 16 n)) = none := by
  cases hM : To4 (List.zipWith (fun x y => x &&& y) c (maskBytes 16 n)) with
  | none => rfl
  | some x =>
    exfalso
    have hlen : (List.zipWith (fun x y => x &&& y) c (maskBytes 16 n)).length = 16 := by
      simp [hl, maskBytes_length]
    rcases To4_some_cases hM with ⟨h4, _⟩ | ⟨_, hh, _⟩
    · omega
    · have hL := List.take_append_drop 12
        (List.zipWith (fun x y => x &&& y) c (maskBytes 16 n))
      rw [hh] at hL
      have key : ∀ i, i < 12 →
          c.getD i 0 &&& maskByte (n - 8 * i) = v4InV6Header.getD i 0 := by
        intro i hi
        rw [← maskBytes_getD 16 n i (by omega),
          ← getD_zipWith_land c (maskBytes 16 n) i (by omega) (by simp [maskBytes_length]; omega),
          ← hL, List.getD_append _ _ _ _ (by simpa [v4InV6Header] using hi)]
      obtain ⟨a0, a1, a2, a3, a4, a5, a6, a7, a8, a9, a10, a11, a12, a13, a14, a15, rfl⟩ :=
        list_length_sixteen hl
      have hb1 : ∀ b ∈ [a0, a1, a2, a3, a4, a5, a6, a7, a8, a9, a10, a11, a12, a13, a14, a15],
          b < 256 := hb
      simp only [List.mem_cons, List.mem_singleton, forall_eq_or_imp, forall_eq,
        List.not_mem_nil, false_implies, implies_true, and_true] at hb1
      obtain ⟨b0, b1, b2, b3, b4, b5, b6, b7, b8, b9, b10, b11, _⟩ := hb1
      have e0 := key 0 (by norm_num)
      have e1 := key 1 (by norm_num)
      have e2 := key 2 (by norm_num)
      have e3 := key 3 (by norm_num)
      have e4 := key 4 (by norm_num)
      have e5 := key 5 (by norm_num)
      have e6 := key 6 (by norm_num)
      have e7 := key 7 (by norm_num)
      have e8 := key 8 (by norm_num)
      have e9 := key 9 (by norm_num)
      have e10 := key 10 (by norm_num)
      have e11 := key 11 (by norm_num)
      simp only [v4InV6Header, List.getD_cons_succ, List.getD_cons_zero] at e0 e1 e2 e3 e4 e5 e6 e7 e8 e9 e10 e11
      obtain ⟨f11, k11⟩ := byte_land_maskByte_full b11 e11
      obtain ⟨f10, _⟩ := byte_land_maskByte_full b10 e10
      rw [maskByte_full (by omega)] at e0 e1 e2 e3 e4 e5 e6 e7 e8 e9
      have g0 := byte_land_full_zero b0 e0
      have g1 := byte_land_full_zero b1 e1
      have g2 := byte_land_full_zero b2 e2
      have g3 := byte_land_full_zero b3 e3
      have g4 := byte_land_full_zero b4 e4
      have g5 := byte_land_full_zero b5 e5
      have g6 := byte_land_full_zero b6 e6
      have g7 := byte_land_full_zero b7 e7
      have g8 := byte_land_full_zero b8 e8
      have g9 := byte_land_full_zero b9 e9
      subst g0 g1 g2 g3 g4 g5 g6 g7 g8 g9 f10 f11
      simp [To4, isZeros] at hc

theorem matchIPLoop_iff (ip : IP) (isIPv6 : Bool) (len : Nat) (cidrs : List CIDR) :
    matchIPLoop ip isIPv6 len cidrs = true ↔
      ∃ c ∈ cidrs, (To4 c.Ip).isSome = !isIPv6 ∧
        IPNetContains (Mask c.Ip (CIDRMask c.Prefix (8 * len)))
          (CIDRMask c.Prefix (8 * len)) ip = true := by
  induction cidrs with
  | nil => simp [matchIPLoop]
  | cons c rest ih =>
    rw [matchIPLoop]
    simp only [List.mem_cons, exists_eq_or_imp]
    cases h4 : (To4 c.Ip).isSome <;> cases isIPv6 <;>
      cases hc : IPNetContains (Mask c.Ip (CIDRMask c.Prefix (8 * len)))
        (CIDRMask c.Prefix (8 * len)) ip <;> simp [ih]

theorem addrBytes_of_some {ip q : IP} (h : To4 ip = some q) : addrBytes ip = q := by
  simp [addrBytes, h]

theorem addrBytes_of_none {ip : IP} (h : To4 ip = none) : addrBytes ip = ip := by
  simp [addrBytes, h]

theorem IPNetContains_nil {m ip : List Nat} (h : addrBytes ip ≠ []) :
    IPNetContains [] m ip = false := by
  apply IPNetContains_length_ne
  rw [networkNumberAndMask_nil]
  simpa using h

/-- The test of one rule against an IPv4 request address. -/
theorem rule_v4 {ip q : IP} (hq : To4 ip = some q) (c : CIDR) {a : IP}
    (ha : To4 c.Ip = some a) :
    IPNetContains (Mask c.Ip (CIDRMask c.Prefix (8 * 4))) (CIDRMask c.Prefix (8 * 4)) ip = true
      ↔ c.Prefix ≤ 32 ∧ ∀ t, t < c.Prefix → bitAt a t = bitAt q t := by
  have hql := To4_some_length hq
  have hal := To4_some_length ha
  have hab := addrBytes_of_some hq
  rw [CIDRMask_v4]
  by_cases hn : c.Prefix ≤ 32
  · simp only [hn, if_true, true_and]
    have hml := maskBytes_length 4 c.Prefix
    have hM : Mask c.Ip (maskBytes 4 c.Prefix)
        = List.zipWith (fun x y => x &&& y) a (maskBytes 4 c.Prefix) := by
      rcases To4_some_cases ha with ⟨h4, rfl⟩ | ⟨h16, hh, rfl⟩
      · exact Mask_same_length (by omega)
      · exact Mask_mapped h16 hh hml
    rw [hM, IPNetContains_masked hab hal hml hql
      (networkNumberAndMask_four (by simp [hal, hml]) hml),
      ← masked_eq_iff_bits a q 4 c.Prefix (by omega)]
    constructor
    · intro h i hi
      rw [← maskBytes_getD 4 c.Prefix i hi]
      exact h i hi
    · intro h i hi
      rw [maskBytes_getD 4 c.Prefix i hi]
      exact h i hi
  · simp only [hn, if_false, false_and, iff_false, Bool.not_eq_true]
    rw [Mask_nil_mask]
    apply IPNetContains_nil
    rw [hab]
    intro h0
    simp [h0] at hql

/-- The test of one rule against an IPv6 request address. -/
theorem rule_v6 {ip : IP} (hq : To4 ip = none) (hl : ip.length = 16) (c : CIDR)
    (ha : To4 c.Ip = none) (hb : isBytes c.Ip) :
    IPNetContains (Mask c.Ip (CIDRMask c.Prefix (8 * 16))) (CIDRMask c.Prefix (8 * 16)) ip = true
      ↔ c.Ip.length = 16 ∧ c.Prefix ≤ 128 ∧
        ∀ t, t < c.Prefix → bitAt c.Ip t = bitAt ip t := by
  have hab := addrBytes_of_none hq
  have hne : addrBytes ip ≠ [] := by
    rw [hab]
    intro h0
    simp [h0] at hl
  rw [CIDRMask_v6]
  by_cases hn : c.Prefix ≤ 128
  · simp only [hn, if_true, true_and]
    have hml := maskBytes_length 16 c.Prefix
    by_cases hcl : c.Ip.length = 16
    · simp only [hcl, true_and]
      rw [Mask_same_length (by omega), IPNetContains_masked hab hcl hml hl
        (networkNumberAndMask_sixteen (by simp [hcl, hml]) (To4_masked_none ha hcl hb) hml),
        ← masked_eq_iff_bits c.Ip ip 16 c.Prefix (by omega)]
      constructor
      · intro h i hi
        rw [← maskBytes_getD 16 c.Prefix i hi]
        exact h i hi
      · intro h i hi
        rw [maskBytes_getD 16 c.Prefix i hi]
        exact h i hi
    · simp only [hcl, false_and, iff_false, Bool.not_eq_true]
      rw [Mask_length_ne (by omega) (To4_none_length ha) (by omega)]
      exact IPNetContains_nil hne
  · simp only [hn, if_false, false_and, and_false, iff_false, Bool.not_eq_true]
    rw [Mask_nil_mask]
    exact IPNetContains_nil hne

/-- The method `matchIP` hits exactly when some rule covers the address. -/
theorem matchIP_iff (r : GeoRouter) (ip : IP) (hne : ip ≠ [])
    (hb : ∀ c ∈ elems r.cidrs, isBytes c.Ip) :
    matchIP r ip = true ↔ ∃ c ∈ elems r.cidrs, cidrCovers c ip := by
  unfold matchIP matchIPOn
  cases hq : To4 ip with
  | some q =>
    have hf : familyOf ip = some Family.v4 := by simp [familyOf, hq]
    simp only [Option.isSome_some, if_true]
    rw [matchIPLoop_iff]
    constructor
    · rintro ⟨c, hc, h4, hcon⟩
      refine ⟨c, hc, ?_⟩
      cases ha : To4 c.Ip with
      | none => simp [ha] at h4
      | some a =>
        have h1 := (rule_v4 hq c ha).1 hcon
        refine ⟨Family.v4, hf, by simp [familyOf, ha], h1.1, ?_⟩
        rw [addrBytes_of_some ha, addrBytes_of_some hq]
        exact h1.2
    · rintro ⟨c, hc, f, hf1, hf2, hn, hbits⟩
      rw [hf] at hf1
      cases hf1
      refine ⟨c, hc, ?_⟩
      cases ha : To4 c.Ip with
      | none =>
        exfalso
        unfold familyOf at hf2
        simp only [ha, Option.isSome_none, Bool.false_eq_true, if_false] at hf2
        split at hf2 <;> cases hf2
      | some a =>
        refine ⟨by simp, (rule_v4 hq c ha).2 ⟨hn, ?_⟩⟩
        rw [addrBytes_of_some ha, addrBytes_of_some hq] at hbits
        exact hbits
  | none =>
    simp only [Option.isSome_none, Bool.false_eq_true, if_false]
    rw [matchIPLoop_iff]
    by_cases hl : ip.length = 16
    · have hf : familyOf ip = some Family.v6 := by simp [familyOf, hq, hl]
      constructor
      · rintro ⟨c, hc, h4, hcon⟩
        refine ⟨c, hc, ?_⟩
        cases ha : To4 c.Ip with
        | some a => simp [ha] at h4
        | none =>
          have h1 := (rule_v6 hq hl c ha (hb c hc)).1 hcon
          refine ⟨Family.v6, hf, by simp [familyOf, ha, h1.1], h1.2.1, ?_⟩
          rw [addrBytes_of_none ha, addrBytes_of_none hq]
          exact h1.2.2
      · rintro ⟨c, hc, f, hf1, hf2, hn, hbits⟩
        rw [hf] at hf1
        cases hf1
        refine ⟨c, hc, ?_⟩
        cases ha : To4 c.Ip with
        | some a =>
          exfalso
          simp [familyOf, ha] at hf2
        | none =>
          have hcl : c.Ip.length = 16 := by
            unfold familyOf at hf2
            simp only [ha, Option.isSome_none, Bool.false_eq_true, if_false] at hf2
            split at hf2
            · assumption
            · cases hf2
          refine ⟨by simp, (rule_v6 hq hl c ha (hb c hc)).2 ⟨hcl, hn, ?_⟩⟩
          rw [addrBytes_of_none ha, addrBytes_of_none hq] at hbits
          exact hbits
    · have hf : familyOf ip = none := by simp [familyOf, hq, hl]
      constructor
      · rintro ⟨c, _, _, hcon⟩
        exfalso
        have h4 := To4_none_length hq
        have h0 : ip.length ≠ 0 := by
          intro h0
          exact hne (List.length_eq_zero.1 h0)
        have hlen := networkNumberAndMask_length
          (Mask c.Ip (CIDRMask c.Prefix (8 * 16))) (CIDRMask c.Prefix (8 * 16))
        rw [IPNetContains_length_ne (by rw [addrBytes_of_none hq]; omega)] at hcon
        cases hcon
      · rintro ⟨c, _, f, hf1, _⟩
        rw [hf] at hf1
        cases hf1

theorem RouteRequest_ip (re : RegexpMatch) (resolve : Resolver) (r : GeoRouter) (req : Request)
    (h : req.AddressType = AddressType.IPv4 ∨ req.AddressType = AddressType.IPv6) :
    RouteRequest re resolve r req =
      if r.cidrs = none then ⟨r.nonMatchPolicy, none, []⟩
      else if matchIP r req.IP then ⟨r.matchPolicy, none, []⟩
      else ⟨r.nonMatchPolicy, none, []⟩ := by
  rw [RouteRequest]
  rcases h with h | h <;> split <;> simp_all

theorem RouteRequest_domain (re : RegexpMatch) (resolve : Resolver) (r : GeoRouter)
    (req : Request) (h : req.AddressType = AddressType.DomainName) :
    RouteRequest re resolve r req =
      if r.domains = none then ⟨r.nonMatchPolicy, none, []⟩
      else if r.strategy = Strategy.IPOnDemand then
        routeRequestByIP re resolve r req.DomainName
      else if matchDomain re r req.DomainName then ⟨r.matchPolicy, none, []⟩
      else if r.strategy = Strategy.IPIfNonMatch then
        routeRequestByIP re resolve r req.DomainName
      else ⟨r.nonMatchPolicy, none, []⟩ := by
  rw [RouteRequest]
  split <;> simp_all

theorem routeRequestByIP_ok (re : RegexpMatch) (resolve : Resolver) (r : GeoRouter)
    (domain : GoString) (ip : IP) (h : resolve domain = .ok ip) :
    routeRequestByIP re resolve r domain =
      ⟨(RouteRequest re resolve r
          ⟨if (To4 ip).isSome then AddressType.IPv4 else AddressType.IPv6, [], ip⟩).policy,
        (RouteRequest re resolve r
          ⟨if (To4 ip).isSome then AddressType.IPv4 else AddressType.IPv6, [], ip⟩).err,
        domain :: (RouteRequest re resolve r
          ⟨if (To4 ip).isSome then AddressType.IPv4 else AddressType.IPv6, [], ip⟩).lookups⟩ := by
  rw [routeRequestByIP]
  simp [h]

theorem routeRequestByIP_error (re : RegexpMatch) (resolve : Resolver) (r : GeoRouter)
    (domain : GoString) (e : Error) (h : resolve domain = .error e) :
    routeRequestByIP re resolve r domain = ⟨Policy.Unknown, some e, [domain]⟩ := by
  rw [routeRequestByIP]
  simp [h]

/-! ## Routing a request -/

/-- C3, as stated, fails: for the request of address type IPv6 whose address
is the nil slice, `RouteRequest` returns the match policy `Bypass` against the
single rule with the 5-byte address `1.2.3.4.5` and length 0, and against the
single rule `::` with length 200, although in both cases no rule covers the
request address: the address has no family, and the length 200 exceeds 128. -/
theorem C3_nil_address_matches_malformed_rule :
    (⟨AddressType.IPv6, [], []⟩ : Request).AddressType = AddressType.IPv6
    ∧ (¬ ∃ c ∈ elems (some [(⟨[1, 2, 3, 4, 5], 0⟩ : CIDR)]),
        cidrCovers c (⟨AddressType.IPv6, [], []⟩ : Request).IP)
    ∧ (RouteRequest noRegexp resolveFail
        ⟨none, some [⟨[1, 2, 3, 4, 5], 0⟩], Policy.Bypass, Policy.Proxy, Strategy.AsIs⟩
        ⟨AddressType.IPv6, [], []⟩).policy = Policy.Bypass
    ∧ (RouteRequest noRegexp resolveFail
        ⟨none, some [⟨[1, 2, 3, 4, 5], 0⟩], Policy.Bypass, Policy.Proxy, Strategy.AsIs⟩
        ⟨AddressType.IPv6, [], []⟩).policy ≠ Policy.Proxy
    ∧ (¬ ∃ c ∈ elems (some [(⟨List.replicate 16 0, 200⟩ : CIDR)]),
        cidrCovers c (⟨AddressType.IPv6, [], []⟩ : Request).IP)
    ∧ (RouteRequest noRegexp resolveFail
        ⟨none, some [⟨List.replicate 16 0, 200⟩], Policy.Bypass, Policy.Proxy, Strategy.AsIs⟩
        ⟨AddressType.IPv6, [], []⟩).policy = Policy.Bypass := by
  have hnone : ∀ cs : List CIDR, ¬ ∃ c ∈ cs, cidrCovers c ([] : IP) := by
    rintro cs ⟨c, _, f, hf, _⟩
    have h0 : familyOf ([] : IP) = none := by decide
    rw [h0] at hf
    cases hf
  have h1 : (RouteRequest noRegexp resolveFail
      ⟨none, some [⟨[1, 2, 3, 4, 5], 0⟩], Policy.Bypass, Policy.Proxy, Strategy.AsIs⟩
      ⟨AddressType.IPv6, [], []⟩).policy = Policy.Bypass := by
    rw [RouteRequest_ip _ _ _ _ (Or.inr rfl)]
    decide
  have h2 : (RouteRequest noRegexp resolveFail
      ⟨none, some [⟨List.replicate 16 0, 200⟩], Policy.Bypass, Policy.Proxy, Strategy.AsIs⟩
      ⟨AddressType.IPv6, [], []⟩).policy = Policy.Bypass := by
    rw [RouteRequest_ip _ _ _ _ (Or.inr rfl)]
    decide
  refine ⟨rfl, hnone _, h1, ?_, hnone _, h2⟩
  rw [h1]
  decide

/-- C3, amended: for a request of address type IPv4 or IPv6 that carries an
address (its `IP` is not the nil slice),
against CIDR rules whose addresses are byte sequences, `RouteRequest` returns
no error; it returns `matchPolicy` if some CIDR rule covers the request
address (same address family, rule length within the bit width of the family,
equal leading bits), and `nonMatchPolicy` otherwise, in particular when the
router has no CIDR rule. -/
theorem C3_route_ip_request (re : RegexpMatch) (resolve : Resolver) (r : GeoRouter)
    (req : Request)
    (htype : req.AddressType = AddressType.IPv4 ∨ req.AddressType = AddressType.IPv6)
    (hip : req.IP ≠ [])
    (hb : ∀ c ∈ elems r.cidrs, isBytes c.Ip) :
    (RouteRequest re resolve r req).err = none
    ∧ ((∃ c ∈ elems r.cidrs, cidrCovers c req.IP) →
        (RouteRequest re resolve r req).policy = r.matchPolicy)
    ∧ ((¬ ∃ c ∈ elems r.cidrs, cidrCovers c req.IP) →
        (RouteRequest re resolve r req).policy = r.nonMatchPolicy)
    ∧ (elems r.cidrs = [] → (RouteRequest re resolve r req).policy = r.nonMatchPolicy) := by
  rw [RouteRequest_ip re resolve r req htype]
  have hm := matchIP_iff r req.IP hip hb
  have part3 : (¬ ∃ c ∈ elems r.cidrs, cidrCovers c req.IP) →
      (if r.cidrs = none then (⟨r.nonMatchPolicy, none, []⟩ : Outcome)
        else if matchIP r req.IP = true then ⟨r.matchPolicy, none, []⟩
        else ⟨r.nonMatchPolicy, none, []⟩).policy = r.nonMatchPolicy := by
    intro h
    have hf : matchIP r req.IP = false := by
      cases hx : matchIP r req.IP
      · rfl
      · exact absurd (hm.1 hx) h
    split
    · rfl
    · simp [hf]
  refine ⟨?_, ?_, part3, ?_⟩
  · split
    · rfl
    · split <;> rfl
  · intro h
    have ht := hm.2 h
    have hne : r.cidrs ≠ none := by
      intro h0
      obtain ⟨c, hc, _⟩ := h
      simp [h0, elems] at hc
    simp [hne, ht]
  · intro h0
    apply part3
    rintro ⟨c, hc, _⟩
    simp [h0] at hc

/-- C3, amended, at the rule `10.0.0.0/8` and the request address `10.1.2.3`. -/
theorem C3_route_ip_request_witness :
    (ipRequest [10, 1, 2, 3]).IP ≠ []
    ∧ (∀ c ∈ elems (sampleRouter Strategy.AsIs).cidrs, isBytes c.Ip)
    ∧ (RouteRequest noRegexp resolveFail (sampleRouter Strategy.AsIs)
        (ipRequest [10, 1, 2, 3])).policy = Policy.Bypass :=
  ⟨by decide, by decide,
   (C3_route_ip_request noRegexp resolveFail (sampleRouter Strategy.AsIs)
      (ipRequest [10, 1, 2, 3]) (Or.inl rfl) (by decide) (by decide)).2.1
      ⟨⟨[10, 0, 0, 0], 8⟩, by decide, Family.v4, by decide, by decide, by decide, by decide⟩⟩

/-- C4, as stated, fails: under `IPOnDemand`, a router with the CIDR rule
`1.2.3.4/32` and a nil slice of domain rules answers the domain request
`example.com`, which resolves to `1.2.3.4`, with the non-match policy
`Proxy`, while it answers the IP-typed request for `1.2.3.4` with the match
policy `Bypass`. -/
theorem C4_nil_domains_skip_resolution :
    (cidrOnlyRouter Strategy.IPOnDemand).strategy = Strategy.IPOnDemand
    ∧ resolveTo [1, 2, 3, 4] (bytes "example.com") = .ok [1, 2, 3, 4]
    ∧ (RouteRequest noRegexp (resolveTo [1, 2, 3, 4]) (cidrOnlyRouter Strategy.IPOnDemand)
        (domainRequest (bytes "example.com"))).policy = Policy.Proxy
    ∧ (RouteRequest noRegexp (resolveTo [1, 2, 3, 4]) (cidrOnlyRouter Strategy.IPOnDemand)
        (ipRequest [1, 2, 3, 4])).policy = Policy.Bypass
    ∧ (RouteRequest noRegexp (resolveTo [1, 2, 3, 4]) (cidrOnlyRouter Strategy.IPOnDemand)
        (domainRequest (bytes "example.com"))).policy
      ≠ (RouteRequest noRegexp (resolveTo [1, 2, 3, 4]) (cidrOnlyRouter Strategy.IPOnDemand)
        (ipRequest [1, 2, 3, 4])).policy := by
  have h1 : (RouteRequest noRegexp (resolveTo [1, 2, 3, 4])
      (cidrOnlyRouter Strategy.IPOnDemand) (domainRequest (bytes "example.com"))).policy
      = Policy.Proxy := by
    rw [RouteRequest_domain _ _ _ _ rfl]
    decide
  have h2 : (RouteRequest noRegexp (resolveTo [1, 2, 3, 4])
      (cidrOnlyRouter Strategy.IPOnDemand) (ipRequest [1, 2, 3, 4])).policy
      = Policy.Bypass := by
    rw [RouteRequest_ip _ _ _ _ (Or.inl rfl)]
    decide
  refine ⟨rfl, rfl, h1, h2, ?_⟩
  rw [h1, h2]
  decide

/-- C4, amended: under `IPOnDemand`, for a domain-typed request on a router
whose slice of domain rules is not nil (it may be empty): if the resolver
yields the address `a`, `RouteRequest` returns the policy and error that it
returns for every IP-typed request with address `a`; if the resolver fails,
it returns `Unknown` with the error of the resolver. On a router whose slice
of domain rules is nil it returns `nonMatchPolicy` and no error, and makes no
call of the resolver. -/
theorem C4_ip_on_demand (re : RegexpMatch) (resolve : Resolver) (r : GeoRouter)
    (req : Request)
    (hs : r.strategy = Strategy.IPOnDemand)
    (ht : req.AddressType = AddressType.DomainName) :
    (r.domains ≠ none →
      (∀ a, resolve req.DomainName = .ok a →
        ∀ ipReq : Request,
          (ipReq.AddressType = AddressType.IPv4 ∨ ipReq.AddressType = AddressType.IPv6) →
          ipReq.IP = a →
          (RouteRequest re resolve r req).policy = (RouteRequest re resolve r ipReq).policy
          ∧ (RouteRequest re resolve r req).err = (RouteRequest re resolve r ipReq).err)
      ∧ (∀ e, resolve req.DomainName = .error e →
          (RouteRequest re resolve r req).policy = Policy.Unknown
          ∧ (RouteRequest re resolve r req).err = some e))
    ∧ (r.domains = none →
        (RouteRequest re resolve r req).policy = r.nonMatchPolicy
        ∧ (RouteRequest re resolve r req).err = none
        ∧ (RouteRequest re resolve r req).lookups = []) := by
  rw [RouteRequest_domain re resolve r req ht]
  constructor
  · intro hd
    simp only [hd, if_false, hs, if_true]
    constructor
    · intro a ha ipReq hty hip
      rw [routeRequestByIP_ok re resolve r _ a ha]
      have h1 : (if (To4 a).isSome then AddressType.IPv4 else AddressType.IPv6)
          = AddressType.IPv4 ∨
          (if (To4 a).isSome then AddressType.IPv4 else AddressType.IPv6)
          = AddressType.IPv6 := by
        split
        · exact Or.inl rfl
        · exact Or.inr rfl
      rw [RouteRequest_ip re resolve r _ h1, RouteRequest_ip re resolve r ipReq hty, hip]
      exact ⟨rfl, rfl⟩
    · intro e he
      rw [routeRequestByIP_error re resolve r _ e he]
      exact ⟨rfl, rfl⟩
  · intro hd
    simp [hd]

/-- C4, amended, at the router with rules `example.com` and `10.0.0.0/8` and
a resolver that yields `10.1.2.3`. -/
theorem C4_ip_on_demand_witness :
    (sampleRouter Strategy.IPOnDemand).strategy = Strategy.IPOnDemand
    ∧ (domainRequest (bytes "other.org")).AddressType = AddressType.DomainName
    ∧ (RouteRequest noRegexp (resolveTo [10, 1, 2, 3]) (sampleRouter Strategy.IPOnDemand)
        (domainRequest (bytes "other.org"))).policy
      = (RouteRequest noRegexp (resolveTo [10, 1, 2, 3]) (sampleRouter Strategy.IPOnDemand)
        (ipRequest [10, 1, 2, 3])).policy :=
  ⟨rfl, rfl,
   (((C4_ip_on_demand noRegexp (resolveTo [10, 1, 2, 3]) (sampleRouter Strategy.IPOnDemand)
      (domainRequest (bytes "other.org")) rfl rfl).1 (by decide)).1 [10, 1, 2, 3] rfl
      (ipRequest [10, 1, 2, 3]) (Or.inl rfl) rfl).1⟩

/-- C5, as stated, fails: under `IPIfNonMatch`, a router with the CIDR rule
`1.2.3.4/32` and a nil slice of domain rules answers the domain request
`example.com`, which no domain rule matches and which resolves to `1.2.3.4`,
with the non-match policy `Proxy`, although the resolved address matches the
CIDR list. -/
theorem C5_nil_domains_skip_fallback :
    (cidrOnlyRouter Strategy.IPIfNonMatch).strategy = Strategy.IPIfNonMatch
    ∧ matchDomain noRegexp (cidrOnlyRouter Strategy.IPIfNonMatch) (bytes "example.com") = false
    ∧ resolveTo [1, 2, 3, 4] (bytes "example.com") = .ok [1, 2, 3, 4]
    ∧ matchIP (cidrOnlyRouter Strategy.IPIfNonMatch) [1, 2, 3, 4] = true
    ∧ (RouteRequest noRegexp (resolveTo [1, 2, 3, 4]) (cidrOnlyRouter Strategy.IPIfNonMatch)
        (domainRequest (bytes "example.com"))).policy = Policy.Proxy
    ∧ (RouteRequest noRegexp (resolveTo [1, 2, 3, 4]) (cidrOnlyRouter Strategy.IPIfNonMatch)
        (domainRequest (bytes "example.com"))).policy
      ≠ (cidrOnlyRouter Strategy.IPIfNonMatch).matchPolicy := by
  have h1 : (RouteRequest noRegexp (resolveTo [1, 2, 3, 4])
      (cidrOnlyRouter Strategy.IPIfNonMatch) (domainRequest (bytes "example.com"))).policy
      = Policy.Proxy := by
    rw [RouteRequest_domain _ _ _ _ rfl]
    decide
  refine ⟨rfl, by decide, rfl, by decide, h1, ?_⟩
  rw [h1]
  decide

/-- C5, amended: under `AsIs` or `IPIfNonMatch`, for a domain-typed request:
if `matchDomain` hits, `RouteRequest` returns `matchPolicy`; if it does not
hit, the strategy is `IPIfNonMatch` and the slice of domain rules is not nil
(it may be empty), `RouteRequest` resolves the domain and returns
`matchPolicy` or `nonMatchPolicy` as `matchIP` decides on the resolved
address, or `Unknown` with the error of the resolver; if it does not hit and
the strategy is `AsIs`, or the slice of domain rules is nil, `RouteRequest`
returns `nonMatchPolicy`. -/
theorem C5_as_is_and_ip_if_non_match (re : RegexpMatch) (resolve : Resolver) (r : GeoRouter)
    (req : Request)
    (hs : r.strategy = Strategy.AsIs ∨ r.strategy = Strategy.IPIfNonMatch)
    (ht : req.AddressType = AddressType.DomainName) :
    (matchDomain re r req.DomainName = true →
      (RouteRequest re resolve r req).policy = r.matchPolicy
      ∧ (RouteRequest re resolve r req).err = none)
    ∧ (matchDomain re r req.DomainName = false → r.strategy = Strategy.IPIfNonMatch →
        r.domains ≠ none →
        (∀ a, resolve req.DomainName = .ok a →
          (RouteRequest re resolve r req).policy
            = (if matchIP r a then r.matchPolicy else r.nonMatchPolicy)
          ∧ (RouteRequest re resolve r req).err = none)
        ∧ (∀ e, resolve req.DomainName = .error e →
          (RouteRequest re resolve r req).policy = Policy.Unknown
          ∧ (RouteRequest re resolve r req).err = some e))
    ∧ (matchDomain re r req.DomainName = false →
        r.strategy = Strategy.AsIs ∨ r.domains = none →
        (RouteRequest re resolve r req).policy = r.nonMatchPolicy
        ∧ (RouteRequest re resolve r req).err = none) := by
  have hnd : r.strategy ≠ Strategy.IPOnDemand := by
    rcases hs with h | h <;> rw [h] <;> decide
  rw [RouteRequest_domain re resolve r req ht]
  refine ⟨?_, ?_, ?_⟩
  · intro hm
    have hd : r.domains ≠ none := by
      intro h0
      simp [matchDomain, h0, elems, matchDomainLoop] at hm
    simp [hd, hnd, hm]
  · intro hm hst hd
    simp only [hd, if_false, hnd, hm, Bool.false_eq_true, hst, if_true]
    constructor
    · intro a ha
      rw [routeRequestByIP_ok re resolve r _ a ha]
      have h1 : (if (To4 a).isSome then AddressType.IPv4 else AddressType.IPv6)
          = AddressType.IPv4 ∨
          (if (To4 a).isSome then AddressType.IPv4 else AddressType.IPv6)
          = AddressType.IPv6 := by
        split
        · exact Or.inl rfl
        · exact Or.inr rfl
      rw [RouteRequest_ip re resolve r _ h1]
      by_cases hc : r.cidrs = none
      · have hf : matchIP r a = false := by
          simp [matchIP, hc, elems, matchIPOn, matchIPLoop]
        simp [hc, hf]
      · simp only [hc, if_false]
        cases hmi : matchIP r a <;> simp
    · intro e he
      rw [routeRequestByIP_error re resolve r _ e he]
      exact ⟨rfl, rfl⟩
  · intro hm hor
    rcases hor with hst | hd
    · have h2 : r.strategy ≠ Strategy.IPIfNonMatch := by
        rw [hst]
        decide
      by_cases hd : r.domains = none
      · simp [hd]
      · simp [hd, hnd, hm, h2]
    · simp [hd]

/-- C5, amended, at the router with rules `example.com` and `10.0.0.0/8`: the
name `www.example.com` hits the domain rule. -/
theorem C5_as_is_and_ip_if_non_match_witness :
    (sampleRouter Strategy.IPIfNonMatch).strategy = Strategy.IPIfNonMatch
    ∧ matchDomain noRegexp (sampleRouter Strategy.IPIfNonMatch) (bytes "www.example.com") = true
    ∧ (RouteRequest noRegexp resolveFail (sampleRouter Strategy.IPIfNonMatch)
        (domainRequest (bytes "www.example.com"))).policy = Policy.Bypass :=
  ⟨rfl, by decide,
   ((C5_as_is_and_ip_if_non_match noRegexp resolveFail (sampleRouter Strategy.IPIfNonMatch)
      (domainRequest (bytes "www.example.com")) (Or.inr rfl) rfl).1 (by decide)).1⟩

theorem RouteRequest_ip_lookups (re : RegexpMatch) (resolve : Resolver) (r : GeoRouter)
    (req : Request)
    (h : req.AddressType = AddressType.IPv4 ∨ req.AddressType = AddressType.IPv6) :
    (RouteRequest re resolve r req).lookups = [] := by
  rw [RouteRequest_ip re resolve r req h]
  by_cases hc : r.cidrs = none
  · simp [hc]
  · cases hm : matchIP r req.IP <;> simp [hc, hm]

theorem routeRequestByIP_lookups (re : RegexpMatch) (resolve : Resolver) (r : GeoRouter)
    (domain : GoString) :
    (routeRequestByIP re resolve r domain).lookups = [domain] := by
  cases h : resolve domain with
  | error e => rw [routeRequestByIP_error re resolve r domain e h]
  | ok a =>
    rw [routeRequestByIP_ok re resolve r domain a h]
    have h1 : (if (To4 a).isSome then AddressType.IPv4 else AddressType.IPv6)
        = AddressType.IPv4 ∨
        (if (To4 a).isSome then AddressType.IPv4 else AddressType.IPv6)
        = AddressType.IPv6 := by
      split
      · exact Or.inl rfl
      · exact Or.inr rfl
    show domain :: (RouteRequest re resolve r
      ⟨if (To4 a).isSome then AddressType.IPv4 else AddressType.IPv6, [], a⟩).lookups = [domain]
    rw [RouteRequest_ip_lookups re resolve r _ h1]

theorem RouteRequest_invalid (re : RegexpMatch) (resolve : Resolver) (r : GeoRouter)
    (req : Request) (tag : Nat) (h : req.AddressType = AddressType.Invalid tag) :
    RouteRequest re resolve r req = ⟨Policy.Unknown, some Error.invalidAddressType, []⟩ := by
  rw [RouteRequest]
  split <;> simp_all

/-- C6: `RouteRequest` hands nothing to the resolver for an IP-typed request;
for any request the log of resolver calls is empty or the single entry of the
request domain; a resolver call on a domain-typed request happens only when the
strategy is `IPOnDemand`, or the strategy is `IPIfNonMatch` and `matchDomain`
did not hit; and under `AsIs` the outcome is the same for every two
resolvers. -/
theorem C6_resolver_calls (re : RegexpMatch) (resolve : Resolver) (r : GeoRouter)
    (req : Request) :
    ((req.AddressType = AddressType.IPv4 ∨ req.AddressType = AddressType.IPv6) →
      (RouteRequest re resolve r req).lookups = [])
    ∧ (RouteRequest re resolve r req).lookups.length ≤ 1
    ∧ ((RouteRequest re resolve r req).lookups = []
        ∨ (RouteRequest re resolve r req).lookups = [req.DomainName])
    ∧ ((RouteRequest re resolve r req).lookups ≠ [] →
        req.AddressType = AddressType.DomainName
        ∧ (r.strategy = Strategy.IPOnDemand
          ∨ (r.strategy = Strategy.IPIfNonMatch ∧ matchDomain re r req.DomainName = false)))
    ∧ (r.strategy = Strategy.AsIs →
        ∀ resolve2 : Resolver, RouteRequest re resolve r req = RouteRequest re resolve2 r req) := by
  have hip : (req.AddressType = AddressType.IPv4 ∨ req.AddressType = AddressType.IPv6) →
      (RouteRequest re resolve r req).lookups = [] := by
    exact RouteRequest_ip_lookups re resolve r req
  have hcases : (RouteRequest re resolve r req).lookups = []
      ∨ ((RouteRequest re resolve r req).lookups = [req.DomainName]
        ∧ req.AddressType = AddressType.DomainName
        ∧ (r.strategy = Strategy.IPOnDemand
          ∨ (r.strategy = Strategy.IPIfNonMatch ∧ matchDomain re r req.DomainName = false))) := by
    cases ht : req.AddressType with
    | IPv4 => exact Or.inl (hip (Or.inl ht))
    | IPv6 => exact Or.inl (hip (Or.inr ht))
    | Invalid tag =>
      rw [RouteRequest_invalid re resolve r req tag ht]
      exact Or.inl rfl
    | DomainName =>
      rw [RouteRequest_domain re resolve r req ht]
      by_cases hd : r.domains = none
      · simp [hd]
      · simp only [hd, if_false]
        by_cases hs : r.strategy = Strategy.IPOnDemand
        · simp only [hs, if_true]
          exact Or.inr ⟨routeRequestByIP_lookups _ _ _ _, trivial, Or.inl trivial⟩
        · simp only [hs, if_false]
          cases hm : matchDomain re r req.DomainName
          · simp only [Bool.false_eq_true, if_false]
            by_cases hs2 : r.strategy = Strategy.IPIfNonMatch
            · simp only [hs2, if_true]
              exact Or.inr ⟨routeRequestByIP_lookups _ _ _ _, trivial, Or.inr ⟨trivial, trivial⟩⟩
            · simp [hs2]
          · simp
  refine ⟨hip, ?_, ?_, ?_, ?_⟩
  · rcases hcases with h | ⟨h, _⟩ <;> simp [h]
  · rcases hcases with h | ⟨h, _⟩
    · exact Or.inl h
    · exact Or.inr h
  · intro hne
    rcases hcases with h | ⟨_, h2, h3⟩
    · exact absurd h hne
    · exact ⟨h2, h3⟩
  · intro hs resolve2
    cases ht : req.AddressType with
    | IPv4 =>
      rw [RouteRequest_ip re resolve r req (Or.inl ht),
        RouteRequest_ip re resolve2 r req (Or.inl ht)]
    | IPv6 =>
      rw [RouteRequest_ip re resolve r req (Or.inr ht),
        RouteRequest_ip re resolve2 r req (Or.inr ht)]
    | Invalid tag =>
      rw [RouteRequest_invalid re resolve r req tag ht,
        RouteRequest_invalid re resolve2 r req tag ht]
    | DomainName =>
      rw [RouteRequest_domain re resolve r req ht, RouteRequest_domain re resolve2 r req ht]
      simp [hs]

/-- C6 at an IP-typed request under `IPOnDemand`: no resolver call. -/
theorem C6_resolver_calls_witness :
    (RouteRequest noRegexp (resolveTo [10, 1, 2, 3]) (sampleRouter Strategy.IPOnDemand)
      (ipRequest [10, 1, 2, 3])).lookups = [] :=
  (C6_resolver_calls noRegexp (resolveTo [10, 1, 2, 3]) (sampleRouter Strategy.IPOnDemand)
    (ipRequest [10, 1, 2, 3])).1 (Or.inl rfl)

/-- C7: when the request address and every CIDR rule address belong to
different address families, `matchIP` returns false, whatever the lengths of
the rules. -/
theorem C7_family_mismatch (r : GeoRouter) (ip : IP)
    (h : (familyOf ip = some Family.v4 ∧
            ∀ c ∈ elems r.cidrs, familyOf c.Ip = some Family.v6)
        ∨ (familyOf ip = some Family.v6 ∧
            ∀ c ∈ elems r.cidrs, familyOf c.Ip = some Family.v4)) :
    matchIP r ip = false := by
  have hv4 : ∀ x : IP, familyOf x = some Family.v4 → (To4 x).isSome = true := by
    intro x hx
    unfold familyOf at hx
    split at hx
    · assumption
    · split at hx <;> cases hx
  have hv6 : ∀ x : IP, familyOf x = some Family.v6 → (To4 x).isSome = false := by
    intro x hx
    unfold familyOf at hx
    split at hx
    · cases hx
    · rename_i hn
      simpa using hn
  cases hm : matchIP r ip with
  | false => rfl
  | true =>
    exfalso
    unfold matchIP matchIPOn at hm
    rcases h with ⟨hi, hc⟩ | ⟨hi, hc⟩
    · rw [hv4 ip hi] at hm
      simp only [if_true] at hm
      obtain ⟨c, hcm, h4, _⟩ := (matchIPLoop_iff ip false 4 _).1 hm
      rw [hv6 c.Ip (hc c hcm)] at h4
      simp at h4
    · rw [hv6 ip hi] at hm
      simp only [Bool.false_eq_true, if_false] at hm
      obtain ⟨c, hcm, h4, _⟩ := (matchIPLoop_iff ip true 16 _).1 hm
      rw [hv4 c.Ip (hc c hcm)] at h4
      simp at h4

/-- C7 at the IPv4 address `10.1.2.3` and the IPv6 rule `::/0`. -/
theorem C7_family_mismatch_witness :
    familyOf [10, 1, 2, 3] = some Family.v4
    ∧ (∀ c ∈ elems (some [(⟨List.replicate 16 0, 0⟩ : CIDR)]),
        familyOf c.Ip = some Family.v6)
    ∧ matchIP ⟨none, some [⟨List.replicate 16 0, 0⟩], Policy.Bypass, Policy.Proxy,
        Strategy.AsIs⟩ [10, 1, 2, 3] = false :=
  ⟨by decide, by decide,
   C7_family_mismatch ⟨none, some [⟨List.replicate 16 0, 0⟩], Policy.Bypass, Policy.Proxy,
      Strategy.AsIs⟩ [10, 1, 2, 3] (Or.inl ⟨by decide, by decide⟩)⟩

/-! ## The rule-set loader -/

theorem elems_appendSlice {α : Type} (s : Option (List α)) (xs : List α) :
    elems (appendSlice s xs) = elems s ++ xs := by
  cases xs with
  | nil => simp [appendSlice]
  | cons x rest => simp [appendSlice, elems]

/-- The scan for one tag either finds no entry and leaves the router as it is,
or appends the rules of an entry with that country code. -/
theorem scanGeoIP_cases (c : GoString) (r : GeoRouter) (entries : List GeoIP) :
    ((∀ e ∈ entries, c ≠ e.CountryCode) ∧ scanGeoIP c r entries = (r, false))
    ∨ ∃ e ∈ entries, c = e.CountryCode ∧
        scanGeoIP c r entries = ({ r with cidrs := appendSlice r.cidrs e.Cidr }, true) := by
  induction entries with
  | nil => exact Or.inl ⟨by simp, rfl⟩
  | cons e rest ih =>
    by_cases h : c = e.CountryCode
    · exact Or.inr ⟨e, List.mem_cons_self _ _, h, by simp [scanGeoIP, h]⟩
    · rcases ih with ⟨hn, hs⟩ | ⟨e1, he1, hc1, hs⟩
      · refine Or.inl ⟨?_, by simp [scanGeoIP, h, hs]⟩
        intro x hx
        rcases List.mem_cons.1 hx with rfl | hx
        · exact h
        · exact hn x hx
      · exact Or.inr ⟨e1, List.mem_cons_of_mem _ he1, hc1, by simp [scanGeoIP, h, hs]⟩

theorem scanGeoSite_cases (c : GoString) (r : GeoRouter) (entries : List GeoSite) :
    ((∀ e ∈ entries, c ≠ e.CountryCode) ∧ scanGeoSite c r entries = (r, false))
    ∨ ∃ e ∈ entries, c = e.CountryCode ∧
        scanGeoSite c r entries
          = ({ r with domains := appendSlice r.domains e.Domain }, true) := by
  induction entries with
  | nil => exact Or.inl ⟨by simp, rfl⟩
  | cons e rest ih =>
    by_cases h : c = e.CountryCode
    · exact Or.inr ⟨e, List.mem_cons_self _ _, h, by simp [scanGeoSite, h]⟩
    · rcases ih with ⟨hn, hs⟩ | ⟨e1, he1, hc1, hs⟩
      · refine Or.inl ⟨?_, by simp [scanGeoSite, h, hs]⟩
        intro x hx
        rcases List.mem_cons.1 hx with rfl | hx
        · exact h
        · exact hn x hx
      · exact Or.inr ⟨e1, List.mem_cons_of_mem _ he1, hc1, by simp [scanGeoSite, h, hs]⟩

/-- What the loop over `ipCode` does to a router: the domain rules stay, and
the CIDR rules grow by rules of entries whose country code is an upper-cased
tag. -/
theorem loadIPCodes_spec (toUpper : GoString → GoString) (entries : List GeoIP)
    (codes : List GoString) (r : GeoRouter) (log : List LogLine) :
    (loadIPCodes toUpper entries codes (r, log)).1.domains = r.domains
    ∧ ∃ added, elems (loadIPCodes toUpper entries codes (r, log)).1.cidrs
        = elems r.cidrs ++ added
      ∧ ∀ x ∈ added, ∃ e ∈ entries, ∃ t ∈ codes, e.CountryCode = toUpper t ∧ x ∈ e.Cidr := by
  induction codes generalizing r log with
  | nil => exact ⟨rfl, [], by simp [loadIPCodes], by simp⟩
  | cons c cs ih =>
    rcases scanGeoIP_cases (toUpper c) r entries with ⟨_, hs⟩ | ⟨e, he, hc, hs⟩
    · have hstep : loadIPCodes toUpper entries (c :: cs) (r, log)
          = loadIPCodes toUpper entries cs (r, log ++ [LogLine.geoIPNotFound (toUpper c)]) := by
        simp [loadIPCodes, hs]
      rw [hstep]
      obtain ⟨hd, added, ha, hall⟩ := ih r (log ++ [LogLine.geoIPNotFound (toUpper c)])
      refine ⟨hd, added, ha, ?_⟩
      intro x hx
      obtain ⟨e, he, t, ht, h1, h2⟩ := hall x hx
      exact ⟨e, he, t, List.mem_cons_of_mem _ ht, h1, h2⟩
    · have hstep : loadIPCodes toUpper entries (c :: cs) (r, log)
          = loadIPCodes toUpper entries cs
              ({ r with cidrs := appendSlice r.cidrs e.Cidr },
                log ++ [LogLine.geoIPLoaded (toUpper c)]) := by
        simp [loadIPCodes, hs]
      rw [hstep]
      obtain ⟨hd, added, ha, hall⟩ := ih { r with cidrs := appendSlice r.cidrs e.Cidr }
        (log ++ [LogLine.geoIPLoaded (toUpper c)])
      refine ⟨hd, e.Cidr ++ added, ?_, ?_⟩
      · rw [ha, elems_appendSlice, List.append_assoc]
      · intro x hx
        rcases List.mem_append.1 hx with hx | hx
        · exact ⟨e, he, c, List.mem_cons_self _ _, hc.symm, hx⟩
        · obtain ⟨e1, he1, t, ht, h1, h2⟩ := hall x hx
          exact ⟨e1, he1, t, List.mem_cons_of_mem _ ht, h1, h2⟩

theorem loadSiteCodes_spec (toUpper : GoString → GoString) (entries : List GeoSite)
    (codes : List GoString) (r : GeoRouter) (log : List LogLine) :
    (loadSiteCodes toUpper entries codes (r, log)).1.cidrs = r.cidrs
    ∧ ∃ added, elems (loadSiteCodes toUpper entries codes (r, log)).1.domains
        = elems r.domains ++ added
      ∧ ∀ x ∈ added, ∃ e ∈ entries, ∃ t ∈ codes, e.CountryCode = toUpper t ∧ x ∈ e.Domain := by
  induction codes generalizing r log with
  | nil => exact ⟨rfl, [], by simp [loadSiteCodes], by simp⟩
  | cons c cs ih =>
    rcases scanGeoSite_cases (toUpper c) r entries with ⟨_, hs⟩ | ⟨e, he, hc, hs⟩
    · have hstep : loadSiteCodes toUpper entries (c :: cs) (r, log)
          = loadSiteCodes toUpper entries cs
              (r, log ++ [LogLine.geoSiteNotFound (toUpper c)]) := by
        simp [loadSiteCodes, hs]
      rw [hstep]
      obtain ⟨hd, added, ha, hall⟩ := ih r (log ++ [LogLine.geoSiteNotFound (toUpper c)])
      refine ⟨hd, added, ha, ?_⟩
      intro x hx
      obtain ⟨e, he, t, ht, h1, h2⟩ := hall x hx
      exact ⟨e, he, t, List.mem_cons_of_mem _ ht, h1, h2⟩
    · have hstep : loadSiteCodes toUpper entries (c :: cs) (r, log)
          = loadSiteCodes toUpper entries cs
              ({ r with domains := appendSlice r.domains e.Domain },
                log ++ [LogLine.geoSiteLoaded (toUpper c)]) := by
        simp [loadSiteCodes, hs]
      rw [hstep]
      obtain ⟨hd, added, ha, hall⟩ := ih { r with domains := appendSlice r.domains e.Domain }
        (log ++ [LogLine.geoSiteLoaded (toUpper c)])
      refine ⟨hd, e.Domain ++ added, ?_, ?_⟩
      · rw [ha, elems_appendSlice, List.append_assoc]
      · intro x hx
        rcases List.mem_append.1 hx with hx | hx
        · exact ⟨e, he, c, List.mem_cons_self _ _, hc.symm, hx⟩
        · obtain ⟨e1, he1, t, ht, h1, h2⟩ := hall x hx
          exact ⟨e1, he1, t, List.mem_cons_of_mem _ ht, h1, h2⟩

theorem LoadGeoData_ok (unmarshalIP : Unmarshal GeoIP) (unmarshalSite : Unmarshal GeoSite)
    (toUpper : GoString → GoString) (r : GeoRouter)
    (geoipData : List Nat) (ipCode : List GoString)
    (geositeData : List Nat) (siteCode : List GoString)
    (geoip : List GeoIP) (geosite : List GeoSite)
    (hip : unmarshalIP geoipData = .ok geoip)
    (hsite : unmarshalSite geositeData = .ok geosite) :
    LoadGeoData unmarshalIP unmarshalSite toUpper r geoipData ipCode geositeData siteCode
      = ⟨(loadSiteCodes toUpper geosite siteCode
            (loadIPCodes toUpper geoip ipCode (r, []))).1, none,
          (loadSiteCodes toUpper geosite siteCode
            (loadIPCodes toUpper geoip ipCode (r, []))).2⟩ := by
  simp [LoadGeoData, hip, hsite]

/-- C8: when both blobs decode, the CIDR rules after `LoadGeoData` are the
rules held before followed by rules that each belong to a GeoIP entry whose
country code is the upper-cased form of a tag of `ipCode`, and the domain
rules are the rules held before followed by rules that each belong to a
GeoSite entry whose country code is the upper-cased form of a tag of
`siteCode`; so every rule of the router was held before or comes from an
entry that matches a configured tag. -/
theorem C8_loaded_rules_match_tags (unmarshalIP : Unmarshal GeoIP)
    (unmarshalSite : Unmarshal GeoSite)
    (toUpper : GoString → GoString) (r : GeoRouter)
    (geoipData : List Nat) (ipCode : List GoString)
    (geositeData : List Nat) (siteCode : List GoString)
    (geoip : List GeoIP) (geosite : List GeoSite)
    (hip : unmarshalIP geoipData = .ok geoip)
    (hsite : unmarshalSite geositeData = .ok geosite) :
    (∃ added,
      elems (LoadGeoData unmarshalIP unmarshalSite toUpper r geoipData ipCode
        geositeData siteCode).router.cidrs = elems r.cidrs ++ added
      ∧ ∀ c ∈ added, ∃ e ∈ geoip, ∃ t ∈ ipCode, e.CountryCode = toUpper t ∧ c ∈ e.Cidr)
    ∧ (∃ added,
      elems (LoadGeoData unmarshalIP unmarshalSite toUpper r geoipData ipCode
        geositeData siteCode).router.domains = elems r.domains ++ added
      ∧ ∀ d ∈ added, ∃ e ∈ geosite, ∃ t ∈ siteCode, e.CountryCode = toUpper t ∧ d ∈ e.Domain)
    ∧ (∀ c ∈ elems (LoadGeoData unmarshalIP unmarshalSite toUpper r geoipData ipCode
        geositeData siteCode).router.cidrs,
        c ∈ elems r.cidrs
        ∨ ∃ e ∈ geoip, ∃ t ∈ ipCode, e.CountryCode = toUpper t ∧ c ∈ e.Cidr)
    ∧ (∀ d ∈ elems (LoadGeoData unmarshalIP unmarshalSite toUpper r geoipData ipCode
        geositeData siteCode).router.domains,
        d ∈ elems r.domains
        ∨ ∃ e ∈ geosite, ∃ t ∈ siteCode, e.CountryCode = toUpper t ∧ d ∈ e.Domain) := by
  rw [LoadGeoData_ok unmarshalIP unmarshalSite toUpper r geoipData ipCode geositeData siteCode
    geoip geosite hip hsite]
  obtain ⟨hd1, a1, ha1, hall1⟩ := loadIPCodes_spec toUpper geoip ipCode r []
  obtain ⟨hc2, a2, ha2, hall2⟩ := loadSiteCodes_spec toUpper geosite siteCode
    (loadIPCodes toUpper geoip ipCode (r, [])).1 (loadIPCodes toUpper geoip ipCode (r, [])).2
  have hcid : elems (loadSiteCodes toUpper geosite siteCode
      (loadIPCodes toUpper geoip ipCode (r, []))).1.cidrs = elems r.cidrs ++ a1 := by
    have := hc2
    simp only [Prod.mk.eta] at this
    rw [this, ha1]
  have hdom : elems (loadSiteCodes toUpper geosite siteCode
      (loadIPCodes toUpper geoip ipCode (r, []))).1.domains = elems r.domains ++ a2 := by
    have := ha2
    simp only [Prod.mk.eta] at this
    rw [this, hd1]
  refine ⟨⟨a1, hcid, hall1⟩, ⟨a2, hdom, hall2⟩, ?_, ?_⟩
  · intro c hc
    simp only [] at hc
    rw [hcid] at hc
    rcases List.mem_append.1 hc with h | h
    · exact Or.inl h
    · exact Or.inr (hall1 c h)
  · intro d hd
    simp only [] at hd
    rw [hdom] at hd
    rcases List.mem_append.1 hd with h | h
    · exact Or.inl h
    · exact Or.inr (hall2 d h)

/-- C8 on the sample blobs with the tags `cn` for GeoIP and `xx` for GeoSite:
the router ends with the CIDR rule of the entry `CN` and no domain rule. -/
theorem C8_loaded_rules_match_tags_witness :
    sampleUnmarshalIP [1] = .ok [⟨bytes "CN", [⟨[1, 2, 3, 0], 24⟩]⟩,
      ⟨bytes "US", [⟨[8, 8, 8, 0], 24⟩]⟩]
    ∧ sampleUnmarshalSite [1] = .ok [⟨bytes "CN", [⟨DomainType.Domain, bytes "cn"⟩]⟩,
      ⟨bytes "US", [⟨DomainType.Domain, bytes "us"⟩]⟩]
    ∧ (∀ c ∈ elems (LoadGeoData sampleUnmarshalIP sampleUnmarshalSite asciiUpper
          (NewGeoRouter Policy.Bypass Policy.Proxy Strategy.AsIs)
          [1] [bytes "cn"] [1] [bytes "xx"]).router.cidrs,
        c ∈ elems (NewGeoRouter Policy.Bypass Policy.Proxy Strategy.AsIs).cidrs
        ∨ ∃ e ∈ [(⟨bytes "CN", [⟨[1, 2, 3, 0], 24⟩]⟩ : GeoIP),
              ⟨bytes "US", [⟨[8, 8, 8, 0], 24⟩]⟩],
            ∃ t ∈ [bytes "cn"], e.CountryCode = asciiUpper t ∧ c ∈ e.Cidr)
    ∧ (LoadGeoData sampleUnmarshalIP sampleUnmarshalSite asciiUpper
          (NewGeoRouter Policy.Bypass Policy.Proxy Strategy.AsIs)
          [1] [bytes "cn"] [1] [bytes "xx"]).router.cidrs = some [⟨[1, 2, 3, 0], 24⟩]
    ∧ (LoadGeoData sampleUnmarshalIP sampleUnmarshalSite asciiUpper
          (NewGeoRouter Policy.Bypass Policy.Proxy Strategy.AsIs)
          [1] [bytes "cn"] [1] [bytes "xx"]).router.domains = none :=
  ⟨rfl, rfl,
   (C8_loaded_rules_match_tags sampleUnmarshalIP sampleUnmarshalSite asciiUpper
      (NewGeoRouter Policy.Bypass Policy.Proxy Strategy.AsIs)
      [1] [bytes "cn"] [1] [bytes "xx"] _ _ rfl rfl).2.2.1,
   by decide, by decide⟩

theorem ipTagFound_false {toUpper : GoString → GoString} {entries : List GeoIP} {t : GoString}
    (h : ipTagFound toUpper entries t = false) : ∀ e ∈ entries, toUpper t ≠ e.CountryCode := by
  intro e he heq
  have : ipTagFound toUpper entries t = true := by
    unfold ipTagFound
    rw [List.any_eq_true]
    exact ⟨e, he, by simpa using heq⟩
  rw [h] at this
  cases this

theorem siteTagFound_false {toUpper : GoString → GoString} {entries : List GeoSite}
    {t : GoString} (h : siteTagFound toUpper entries t = false) :
    ∀ e ∈ entries, toUpper t ≠ e.CountryCode := by
  intro e he heq
  have : siteTagFound toUpper entries t = true := by
    unfold siteTagFound
    rw [List.any_eq_true]
    exact ⟨e, he, by simpa using heq⟩
  rw [h] at this
  cases this

theorem scanGeoIP_not_found {c : GoString} (r : GeoRouter) {entries : List GeoIP}
    (h : ∀ e ∈ entries, c ≠ e.CountryCode) : scanGeoIP c r entries = (r, false) := by
  rcases scanGeoIP_cases c r entries with ⟨_, hs⟩ | ⟨e, he, hc, _⟩
  · exact hs
  · exact absurd hc (h e he)

theorem scanGeoSite_not_found {c : GoString} (r : GeoRouter) {entries : List GeoSite}
    (h : ∀ e ∈ entries, c ≠ e.CountryCode) : scanGeoSite c r entries = (r, false) := by
  rcases scanGeoSite_cases c r entries with ⟨_, hs⟩ | ⟨e, he, hc, _⟩
  · exact hs
  · exact absurd hc (h e he)

theorem loadIPCodes_cons (toUpper : GoString → GoString) (entries : List GeoIP)
    (c : GoString) (cs : List GoString) (r : GeoRouter) (log : List LogLine) :
    ∃ log1, loadIPCodes toUpper entries (c :: cs) (r, log)
      = loadIPCodes toUpper entries cs ((scanGeoIP (toUpper c) r entries).1, log1) := by
  cases h : (scanGeoIP (toUpper c) r entries).2 with
  | true => exact ⟨log ++ [LogLine.geoIPLoaded (toUpper c)], by simp [loadIPCodes, h]⟩
  | false => exact ⟨log ++ [LogLine.geoIPNotFound (toUpper c)], by simp [loadIPCodes, h]⟩

theorem loadSiteCodes_cons (toUpper : GoString → GoString) (entries : List GeoSite)
    (c : GoString) (cs : List GoString) (r : GeoRouter) (log : List LogLine) :
    ∃ log1, loadSiteCodes toUpper entries (c :: cs) (r, log)
      = loadSiteCodes toUpper entries cs ((scanGeoSite (toUpper c) r entries).1, log1) := by
  cases h : (scanGeoSite (toUpper c) r entries).2 with
  | true => exact ⟨log ++ [LogLine.geoSiteLoaded (toUpper c)], by simp [loadSiteCodes, h]⟩
  | false => exact ⟨log ++ [LogLine.geoSiteNotFound (toUpper c)], by simp [loadSiteCodes, h]⟩

/-- Dropping the tags that match no entry does not change the router that the
loop over `ipCode` builds. -/
theorem loadIPCodes_filter (toUpper : GoString → GoString) (entries : List GeoIP)
    (codes : List GoString) (r : GeoRouter) (log log2 : List LogLine) :
    (loadIPCodes toUpper entries codes (r, log)).1
      = (loadIPCodes toUpper entries (codes.filter (ipTagFound toUpper entries)) (r, log2)).1 := by
  induction codes generalizing r log log2 with
  | nil => simp [loadIPCodes]
  | cons c cs ih =>
    obtain ⟨l1, h1⟩ := loadIPCodes_cons toUpper entries c cs r log
    rw [h1]
    cases hf : ipTagFound toUpper entries c with
    | false =>
      rw [List.filter_cons_of_neg (by simp [hf]),
        scanGeoIP_not_found r (ipTagFound_false hf)]
      exact ih r l1 log2
    | true =>
      rw [List.filter_cons_of_pos (by simp [hf])]
      obtain ⟨l2, h2⟩ := loadIPCodes_cons toUpper entries c
        (cs.filter (ipTagFound toUpper entries)) r log2
      rw [h2]
      exact ih _ l1 l2

theorem loadSiteCodes_filter (toUpper : GoString → GoString) (entries : List GeoSite)
    (codes : List GoString) (r : GeoRouter) (log log2 : List LogLine) :
    (loadSiteCodes toUpper entries codes (r, log)).1
      = (loadSiteCodes toUpper entries (codes.filter (siteTagFound toUpper entries))
          (r, log2)).1 := by
  induction codes generalizing r log log2 with
  | nil => simp [loadSiteCodes]
  | cons c cs ih =>
    obtain ⟨l1, h1⟩ := loadSiteCodes_cons toUpper entries c cs r log
    rw [h1]
    cases hf : siteTagFound toUpper entries c with
    | false =>
      rw [List.filter_cons_of_neg (by simp [hf]),
        scanGeoSite_not_found r (siteTagFound_false hf)]
      exact ih r l1 log2
    | true =>
      rw [List.filter_cons_of_pos (by simp [hf])]
      obtain ⟨l2, h2⟩ := loadSiteCodes_cons toUpper entries c
        (cs.filter (siteTagFound toUpper entries)) r log2
      rw [h2]
      exact ih _ l1 l2

/-- C9: `LoadGeoData` returns an error exactly when one of the two blobs
fails to decode. When both decode it returns nil for every lists of tags; the
router it builds is the one built from the tags that match an entry alone, so
a tag that matches no entry adds no rule; and when no tag matches an entry
the router is left as it was. -/
theorem C9_load_errors (unmarshalIP : Unmarshal GeoIP) (unmarshalSite : Unmarshal GeoSite)
    (toUpper : GoString → GoString) (r : GeoRouter)
    (geoipData : List Nat) (ipCode : List GoString)
    (geositeData : List Nat) (siteCode : List GoString) :
    ((LoadGeoData unmarshalIP unmarshalSite toUpper r geoipData ipCode
        geositeData siteCode).err ≠ none
      ↔ (∃ e, unmarshalIP geoipData = .error e) ∨ (∃ e, unmarshalSite geositeData = .error e))
    ∧ (∀ geoip geosite, unmarshalIP geoipData = .ok geoip →
        unmarshalSite geositeData = .ok geosite →
        (LoadGeoData unmarshalIP unmarshalSite toUpper r geoipData ipCode
          geositeData siteCode).err = none
        ∧ (LoadGeoData unmarshalIP unmarshalSite toUpper r geoipData ipCode
            geositeData siteCode).router
          = (LoadGeoData unmarshalIP unmarshalSite toUpper r geoipData
              (ipCode.filter (ipTagFound toUpper geoip))
              geositeData (siteCode.filter (siteTagFound toUpper geosite))).router
        ∧ ((∀ t ∈ ipCode, ipTagFound toUpper geoip t = false) →
            (∀ t ∈ siteCode, siteTagFound toUpper geosite t = false) →
            (LoadGeoData unmarshalIP unmarshalSite toUpper r geoipData ipCode
              geositeData siteCode).router = r)) := by
  constructor
  · cases h1 : unmarshalIP geoipData with
    | error e => simp [LoadGeoData, h1]
    | ok geoip =>
      cases h2 : unmarshalSite geositeData with
      | error e => simp [LoadGeoData, h1, h2]
      | ok geosite => simp [LoadGeoData, h1, h2]
  · intro geoip geosite h1 h2
    have hfilt : (LoadGeoData unmarshalIP unmarshalSite toUpper r geoipData ipCode
            geositeData siteCode).router
          = (LoadGeoData unmarshalIP unmarshalSite toUpper r geoipData
              (ipCode.filter (ipTagFound toUpper geoip))
              geositeData (siteCode.filter (siteTagFound toUpper geosite))).router := by
      rw [LoadGeoData_ok _ _ _ _ _ _ _ _ geoip geosite h1 h2,
        LoadGeoData_ok _ _ _ _ _ _ _ _ geoip geosite h1 h2]
      show (loadSiteCodes toUpper geosite siteCode
          (loadIPCodes toUpper geoip ipCode (r, []))).1
        = (loadSiteCodes toUpper geosite (siteCode.filter (siteTagFound toUpper geosite))
          (loadIPCodes toUpper geoip (ipCode.filter (ipTagFound toUpper geoip)) (r, []))).1
      have e1 := loadIPCodes_filter toUpper geoip ipCode r [] []
      have e2 := loadSiteCodes_filter toUpper geosite siteCode
        (loadIPCodes toUpper geoip ipCode (r, [])).1
        (loadIPCodes toUpper geoip ipCode (r, [])).2
        (loadIPCodes toUpper geoip (ipCode.filter (ipTagFound toUpper geoip)) (r, [])).2
      simp only [Prod.mk.eta] at e2
      rw [e2, e1]
    refine ⟨?_, hfilt, ?_⟩
    · rw [LoadGeoData_ok _ _ _ _ _ _ _ _ geoip geosite h1 h2]
    · intro hi hs
      rw [hfilt]
      have f1 : ipCode.filter (ipTagFound toUpper geoip) = [] := by
        rw [List.filter_eq_nil_iff]
        intro t ht
        simp [hi t ht]
      have f2 : siteCode.filter (siteTagFound toUpper geosite) = [] := by
        rw [List.filter_eq_nil_iff]
        intro t ht
        simp [hs t ht]
      rw [f1, f2, LoadGeoData_ok _ _ _ _ _ _ _ _ geoip geosite h1 h2]
      rfl

/-- C9 on the sample blobs with the tags `xx` and `yy`, which match no entry:
no error, and the router is left as it was. -/
theorem C9_load_errors_witness :
    sampleUnmarshalIP [1] = .ok [⟨bytes "CN", [⟨[1, 2, 3, 0], 24⟩]⟩,
      ⟨bytes "US", [⟨[8, 8, 8, 0], 24⟩]⟩]
    ∧ sampleUnmarshalSite [1] = .ok [⟨bytes "CN", [⟨DomainType.Domain, bytes "cn"⟩]⟩,
      ⟨bytes "US", [⟨DomainType.Domain, bytes "us"⟩]⟩]
    ∧ (LoadGeoData sampleUnmarshalIP sampleUnmarshalSite asciiUpper
        (NewGeoRouter Policy.Bypass Policy.Proxy Strategy.AsIs)
        [1] [bytes "xx"] [1] [bytes "yy"]).err = none
    ∧ (LoadGeoData sampleUnmarshalIP sampleUnmarshalSite asciiUpper
        (NewGeoRouter Policy.Bypass Policy.Proxy Strategy.AsIs)
        [1] [bytes "xx"] [1] [bytes "yy"]).router
      = NewGeoRouter Policy.Bypass Policy.Proxy Strategy.AsIs :=
  ⟨rfl, rfl,
   ((C9_load_errors sampleUnmarshalIP sampleUnmarshalSite asciiUpper
      (NewGeoRouter Policy.Bypass Policy.Proxy Strategy.AsIs)
      [1] [bytes "xx"] [1] [bytes "yy"]).2 _ _ rfl rfl).1,
   ((C9_load_errors sampleUnmarshalIP sampleUnmarshalSite asciiUpper
      (NewGeoRouter Policy.Bypass Policy.Proxy Strategy.AsIs)
      [1] [bytes "xx"] [1] [bytes "yy"]).2 _ _ rfl rfl).2.2 (by decide) (by decide)⟩

/-! ## The obfuscation codec -/

theorem xorFrom_length (f : Nat → Nat) (i : Nat) (l : List Nat) :
    (xorFrom f i l).length = l.length := by
  induction l generalizing i with
  | nil => rfl
  | cons b bs ih => simp [xorFrom, ih]

theorem xorFrom_append (f : Nat → Nat) (i : Nat) (a b : List Nat) :
    xorFrom f i (a ++ b) = xorFrom f i a ++ xorFrom f (i + a.length) b := by
  induction a generalizing i with
  | nil => simp [xorFrom]
  | cons x xs ih =>
    have e : i + 1 + xs.length = i + (xs.length + 1) := by omega
    show (x ^^^ f i) :: xorFrom f (i + 1) (xs ++ b)
      = (x ^^^ f i) :: xorFrom f (i + 1) xs ++ xorFrom f (i + (xs.length + 1)) b
    rw [ih, e]
    rfl

/-- XOR with the same keystream twice gives the input back. -/
theorem xorFrom_xorFrom (f : Nat → Nat) (i : Nat) (l : List Nat) :
    xorFrom f i (xorFrom f i l) = l := by
  induction l generalizing i with
  | nil => rfl
  | cons b bs ih => simp [xorFrom, ih, Nat.xor_cancel_right]

theorem xorFrom_take (f : Nat → Nat) (i k : Nat) (l : List Nat) :
    xorFrom f i (l.take k) = (xorFrom f i l).take k := by
  induction l generalizing i k with
  | nil => simp [xorFrom]
  | cons b bs ih =>
    cases k with
    | zero => simp [xorFrom]
    | succ k => simp [xorFrom, ih]

/-- The bytes a buffered stream has accepted for writing: those on the wire
followed by those held back. -/
theorem Write_pending (b : BufioReadWriter) (p : List Nat) :
    (b.Write p).conn.tx ++ (b.Write p).wbuf = b.conn.tx ++ b.wbuf ++ p
    ∧ (b.Write p).conn.rx = b.conn.rx ∧ (b.Write p).rbuf = b.rbuf
    ∧ (b.Write p).rsize = b.rsize ∧ (b.Write p).wsize = b.wsize := by
  unfold BufioReadWriter.Write
  simp only []
  split
  · split
    · rename_i h
      simp [Conn.Write, h]
    · split
      · simp [BufioReadWriter.Flush, Conn.Write, List.append_assoc]
      · simp [BufioReadWriter.Flush, Conn.Write, List.append_assoc]
  · simp [List.append_assoc]

theorem Flush_spec (b : BufioReadWriter) :
    b.Flush.conn.tx = b.conn.tx ++ b.wbuf ∧ b.Flush.wbuf = []
    ∧ b.Flush.conn.rx = b.conn.rx ∧ b.Flush.rbuf = b.rbuf
    ∧ b.Flush.rsize = b.rsize ∧ b.Flush.wsize = b.wsize := by
  simp [BufioReadWriter.Flush, Conn.Write]

/-- One `Write` of the codec: the wire carries all bytes accepted before,
then the XOR of `p` with the keystream at the position of the writer; the
reading side is untouched. -/
theorem codec_Write_spec (ks : Keystream) (rwc : obfReadWriteCloser) (p : List Nat) :
    (rwc.Write ks p).bufrw.conn.tx
      = rwc.bufrw.conn.tx ++ rwc.bufrw.wbuf ++ xorFrom (ks rwc.w.key rwc.w.iv) rwc.w.pos p
    ∧ (rwc.Write ks p).bufrw.wbuf = []
    ∧ (rwc.Write ks p).w = ⟨rwc.w.key, rwc.w.iv, rwc.w.pos + p.length⟩
    ∧ (rwc.Write ks p).r = rwc.r
    ∧ (rwc.Write ks p).bufrw.conn.rx = rwc.bufrw.conn.rx
    ∧ (rwc.Write ks p).bufrw.rbuf = rwc.bufrw.rbuf
    ∧ (rwc.Write ks p).bufrw.rsize = rwc.bufrw.rsize := by
  have hw := Write_pending rwc.bufrw (xorFrom (ks rwc.w.key rwc.w.iv) rwc.w.pos p)
  have hf := Flush_spec (rwc.bufrw.Write (xorFrom (ks rwc.w.key rwc.w.iv) rwc.w.pos p))
  obtain ⟨w1, w2, w3, w4, _⟩ := hw
  obtain ⟨f1, f2, f3, f4, f5, _⟩ := hf
  refine ⟨?_, ?_, rfl, rfl, ?_, ?_, ?_⟩
  · show ((rwc.bufrw.Write (xorFrom (ks rwc.w.key rwc.w.iv) rwc.w.pos p)).Flush).conn.tx = _
    rw [f1, w1]
  · exact f2
  · show ((rwc.bufrw.Write (xorFrom (ks rwc.w.key rwc.w.iv) rwc.w.pos p)).Flush).conn.rx = _
    rw [f3, w2]
  · show ((rwc.bufrw.Write (xorFrom (ks rwc.w.key rwc.w.iv) rwc.w.pos p)).Flush).rbuf = _
    rw [f4, w3]
  · show ((rwc.bufrw.Write (xorFrom (ks rwc.w.key rwc.w.iv) rwc.w.pos p)).Flush).rsize = _
    rw [f5, w4]

/-- A run of writes: the bytes accepted grow by the XOR of all the bytes
written with the keystream from the position of the writer on; after at
least one write nothing is held back. -/
theorem writeAll_spec (ks : Keystream) (rwc : obfReadWriteCloser) (ws : List (List Nat)) :
    (writeAll ks rwc ws).bufrw.conn.tx ++ (writeAll ks rwc ws).bufrw.wbuf
      = rwc.bufrw.conn.tx ++ rwc.bufrw.wbuf
          ++ xorFrom (ks rwc.w.key rwc.w.iv) rwc.w.pos ws.flatten
    ∧ (ws ≠ [] → (writeAll ks rwc ws).bufrw.wbuf = [])
    ∧ (writeAll ks rwc ws).r = rwc.r
    ∧ (writeAll ks rwc ws).bufrw.conn.rx = rwc.bufrw.conn.rx
    ∧ (writeAll ks rwc ws).bufrw.rbuf = rwc.bufrw.rbuf
    ∧ (writeAll ks rwc ws).bufrw.rsize = rwc.bufrw.rsize := by
  induction ws generalizing rwc with
  | nil => simp [writeAll, xorFrom]
  | cons p ps ih =>
    obtain ⟨c1, c2, c3, c4, c5, c6, c7⟩ := codec_Write_spec ks rwc p
    obtain ⟨i1, i2, i3, i4, i5, i6⟩ := ih (rwc.Write ks p)
    simp only [writeAll]
    refine ⟨?_, ?_, ?_, ?_, ?_, ?_⟩
    · rw [i1, c1, c2, c3]
      simp only [List.flatten_cons, xorFrom_append, List.append_nil, List.append_assoc]
    · intro _
      cases ps with
      | nil => simpa [writeAll] using c2
      | cons q qs => exact i2 (by simp)
    · rw [i3, c4]
    · rw [i4, c5]
    · rw [i5, c6]
    · rw [i6, c7]

theorem take_ne_nil {l : List Nat} {n : Nat} (hn : 0 < n) (hl : l ≠ []) : l.take n ≠ [] := by
  intro h0
  have h1 : (l.take n).length = 0 := by rw [h0]; rfl
  rw [List.length_take] at h1
  have h2 : 0 < l.length := List.length_pos.2 hl
  omega

theorem Conn_Read_nil {c : Conn} (m : Nat) (h : c.rx = []) :
    c.Read m = (([], some Error.eof), c) := by
  simp [Conn.Read, h]

theorem Conn_Read_whole {c : Conn} {m : Nat} {chunk : List Nat} {rest : List (List Nat)}
    (h : c.rx = chunk :: rest) (hle : chunk.length ≤ m) :
    c.Read m = ((chunk, none), { c with rx := rest }) := by
  simp [Conn.Read, h, hle]

theorem Conn_Read_part {c : Conn} {m : Nat} {chunk : List Nat} {rest : List (List Nat)}
    (h : c.rx = chunk :: rest) (hgt : ¬ chunk.length ≤ m) :
    c.Read m = ((chunk.take m, none), { c with rx := chunk.drop m :: rest }) := by
  simp [Conn.Read, h, hgt]

/-- One `Read` of a conn: the bytes returned are the head of what the conn
had to deliver; the number of chunks does not grow; a read into a non-empty
buffer returns a byte or uses up a chunk. -/
theorem Conn_Read_spec (c : Conn) (m : Nat) :
    (c.Read m).1.1 ++ (c.Read m).2.rx.flatten = c.rx.flatten
    ∧ (c.Read m).2.rx.length ≤ c.rx.length
    ∧ (0 < m → c.rx ≠ [] → (c.Read m).1.1 ≠ [] ∨ (c.Read m).2.rx.length < c.rx.length) := by
  cases h : c.rx with
  | nil =>
    rw [Conn_Read_nil m h]
    simp [h]
  | cons chunk rest =>
    by_cases hle : chunk.length ≤ m
    · rw [Conn_Read_whole h hle]
      simp
    · rw [Conn_Read_part h hle]
      refine ⟨?_, by simp, ?_⟩
      · simp only [List.flatten_cons]
        rw [← List.append_assoc, List.take_append_drop]
      · intro hm _
        left
        apply take_ne_nil hm
        intro h0
        simp [h0] at hle

theorem Bufio_Read_zero (b : BufioReadWriter) : b.Read 0 = (([], none), b) := by
  simp [BufioReadWriter.Read]

theorem Bufio_Read_buffered {b : BufioReadWriter} {n : Nat} (hn : n ≠ 0) (hb : b.rbuf ≠ []) :
    b.Read n = ((b.rbuf.take n, none), { b with rbuf := b.rbuf.drop n }) := by
  simp [BufioReadWriter.Read, hn, hb]

theorem Bufio_Read_direct {b : BufioReadWriter} {n : Nat} (hn : n ≠ 0) (hb : b.rbuf = [])
    (hs : b.rsize ≤ n) :
    b.Read n = ((b.conn.Read n).1, { b with conn := (b.conn.Read n).2 }) := by
  simp [BufioReadWriter.Read, hn, hb, hs]

theorem Bufio_Read_fill_none {b : BufioReadWriter} {n : Nat} (hn : n ≠ 0) (hb : b.rbuf = [])
    (hs : ¬ b.rsize ≤ n) (hd : (b.conn.Read b.rsize).1.1 = []) :
    b.Read n = (([], (b.conn.Read b.rsize).1.2), { b with conn := (b.conn.Read b.rsize).2 }) := by
  simp [BufioReadWriter.Read, hn, hb, hs, hd]

theorem Bufio_Read_fill {b : BufioReadWriter} {n : Nat} (hn : n ≠ 0) (hb : b.rbuf = [])
    (hs : ¬ b.rsize ≤ n) (hd : (b.conn.Read b.rsize).1.1 ≠ []) :
    b.Read n = (((b.conn.Read b.rsize).1.1.take n, none),
      { b with conn := (b.conn.Read b.rsize).2, rbuf := (b.conn.Read b.rsize).1.1.drop n }) := by
  simp [BufioReadWriter.Read, hn, hb, hs, hd]

/-- One `Read` of a buffered stream: the bytes returned are the head of the
bytes it had yet to deliver, and a read into a non-empty buffer lowers the
potential unless nothing is left. -/
theorem Bufio_Read_spec (b : BufioReadWriter) (n : Nat) :
    (b.Read n).1.1 ++ (b.Read n).2.remaining = b.remaining
    ∧ (b.Read n).2.conn.rx.length ≤ b.conn.rx.length
    ∧ (b.Read n).2.rsize = b.rsize
    ∧ (0 < n → (b.Read n).2.potential + 1 ≤ b.potential ∨ (b.Read n).2.potential = 0) := by
  have hpot : ∀ (d : List Nat) (b2 : BufioReadWriter),
      d ++ b2.remaining = b.remaining → b2.conn.rx.length ≤ b.conn.rx.length →
      (d ≠ [] ∨ b2.conn.rx.length < b.conn.rx.length ∨ b.potential = 0) →
      b2.potential + 1 ≤ b.potential ∨ b2.potential = 0 := by
    intro d b2 h1 h2 h3
    have hl : d.length + b2.remaining.length = b.remaining.length := by
      rw [← h1, List.length_append]
    unfold BufioReadWriter.potential at *
    rcases h3 with h | h | h
    · have : 0 < d.length := List.length_pos.2 h
      left
      omega
    · left
      omega
    · right
      omega
  by_cases hn : n = 0
  · subst hn
    rw [Bufio_Read_zero]
    simp
  · have hpos : 0 < n := Nat.pos_of_ne_zero hn
    by_cases hb : b.rbuf = []
    · have hrem : b.remaining = b.conn.rx.flatten := by
        simp [BufioReadWriter.remaining, hb]
      have hzero : b.conn.rx = [] → b.potential = 0 := by
        intro hrx
        simp [BufioReadWriter.potential, hrem, hrx]
      by_cases hs : b.rsize ≤ n
      · rw [Bufio_Read_direct hn hb hs]
        obtain ⟨c1, c2, c4⟩ := Conn_Read_spec b.conn n
        have r1 : (b.conn.Read n).1.1
            ++ ({ b with conn := (b.conn.Read n).2 } : BufioReadWriter).remaining
            = b.remaining := by
          rw [hrem, ← c1]
          simp [BufioReadWriter.remaining, hb]
        refine ⟨r1, c2, rfl, fun _ => hpot _ _ r1 c2 ?_⟩
        by_cases hrx : b.conn.rx = []
        · exact Or.inr (Or.inr (hzero hrx))
        · rcases c4 hpos hrx with h | h
          · exact Or.inl h
          · exact Or.inr (Or.inl h)
      · have hs2 : 0 < b.rsize := by omega
        obtain ⟨c1, c2, c4⟩ := Conn_Read_spec b.conn b.rsize
        by_cases hd : (b.conn.Read b.rsize).1.1 = []
        · rw [Bufio_Read_fill_none hn hb hs hd]
          have r1 : ([] : List Nat)
              ++ ({ b with conn := (b.conn.Read b.rsize).2 } : BufioReadWriter).remaining
              = b.remaining := by
            rw [hrem, ← c1, hd]
            simp [BufioReadWriter.remaining, hb]
          refine ⟨r1, c2, rfl, fun _ => hpot _ _ r1 c2 ?_⟩
          by_cases hrx : b.conn.rx = []
          · exact Or.inr (Or.inr (hzero hrx))
          · rcases c4 hs2 hrx with h | h
            · exact absurd hd h
            · exact Or.inr (Or.inl h)
        · rw [Bufio_Read_fill hn hb hs hd]
          have r1 : (b.conn.Read b.rsize).1.1.take n
              ++ ({ b with conn := (b.conn.Read b.rsize).2,
                           rbuf := (b.conn.Read b.rsize).1.1.drop n } :
                    BufioReadWriter).remaining
              = b.remaining := by
            rw [hrem, ← c1]
            simp only [BufioReadWriter.remaining]
            rw [← List.append_assoc, List.take_append_drop]
          exact ⟨r1, c2, rfl, fun _ => hpot _ _ r1 c2 (Or.inl (take_ne_nil hpos hd))⟩
    · rw [Bufio_Read_buffered hn hb]
      have r1 : b.rbuf.take n
          ++ ({ b with rbuf := b.rbuf.drop n } : BufioReadWriter).remaining = b.remaining := by
        simp only [BufioReadWriter.remaining]
        rw [← List.append_assoc, List.take_append_drop]
      exact ⟨r1, le_refl _, rfl,
        fun _ => hpot _ _ r1 (le_refl _) (Or.inl (take_ne_nil hpos hb))⟩

theorem Conn_Read_tx (c : Conn) (m : Nat) : (c.Read m).2.tx = c.tx := by
  unfold Conn.Read
  split
  · rfl
  · split <;> rfl

/-- A `Read` of a buffered stream leaves its writing side as it is. -/
theorem Bufio_Read_frame (b : BufioReadWriter) (n : Nat) :
    (b.Read n).2.conn.tx = b.conn.tx ∧ (b.Read n).2.wbuf = b.wbuf := by
  by_cases hn : n = 0
  · subst hn
    rw [Bufio_Read_zero]
    exact ⟨rfl, rfl⟩
  · by_cases hb : b.rbuf = []
    · by_cases hs : b.rsize ≤ n
      · rw [Bufio_Read_direct hn hb hs]
        exact ⟨Conn_Read_tx _ _, rfl⟩
      · by_cases hd : (b.conn.Read b.rsize).1.1 = []
        · rw [Bufio_Read_fill_none hn hb hs hd]
          exact ⟨Conn_Read_tx _ _, rfl⟩
        · rw [Bufio_Read_fill hn hb hs hd]
          exact ⟨Conn_Read_tx _ _, rfl⟩
    · rw [Bufio_Read_buffered hn hb]
      exact ⟨rfl, rfl⟩

/-- A run of reads: the bytes returned are the XOR, with the keystream from
the position of the reader on, of a head `D` of the bytes the stream had yet
to deliver; reads into non-empty buffers lower the potential one by one until
nothing is left. -/
theorem readAll_spec (ks : Keystream) (rwc : obfReadWriteCloser) (sizes : List Nat) :
    ∃ D, (readAll ks rwc sizes).1 = xorFrom (ks rwc.r.key rwc.r.iv) rwc.r.pos D
      ∧ D ++ (readAll ks rwc sizes).2.bufrw.remaining = rwc.bufrw.remaining
      ∧ ((∀ n ∈ sizes, 0 < n) →
          (readAll ks rwc sizes).2.bufrw.potential + sizes.length ≤ rwc.bufrw.potential
          ∨ (readAll ks rwc sizes).2.bufrw.potential = 0) := by
  induction sizes generalizing rwc with
  | nil => exact ⟨[], rfl, rfl, fun _ => Or.inl (le_refl _)⟩
  | cons n ns ih =>
    obtain ⟨b1, _, _, b4⟩ := Bufio_Read_spec rwc.bufrw n
    obtain ⟨D1, i1, i2, i3⟩ := ih (rwc.Read ks n).2
    refine ⟨(rwc.bufrw.Read n).1.1 ++ D1, ?_, ?_, ?_⟩
    · show (rwc.Read ks n).1.1 ++ (readAll ks (rwc.Read ks n).2 ns).1 = _
      rw [i1, xorFrom_append]
      rfl
    · show ((rwc.bufrw.Read n).1.1 ++ D1) ++ (readAll ks (rwc.Read ks n).2 ns).2.bufrw.remaining
        = _
      rw [List.append_assoc, i2]
      exact b1
    · intro hpos
      have hn : 0 < n := hpos n (List.mem_cons_self _ _)
      have hns : ∀ m ∈ ns, 0 < m := fun m hm => hpos m (List.mem_cons_of_mem _ hm)
      have s1 : (rwc.Read ks n).2.bufrw.potential + 1 ≤ rwc.bufrw.potential
          ∨ (rwc.Read ks n).2.bufrw.potential = 0 := b4 hn
      have s2 := i3 hns
      show (readAll ks (rwc.Read ks n).2 ns).2.bufrw.potential + (ns.length + 1)
          ≤ rwc.bufrw.potential
        ∨ (readAll ks (rwc.Read ks n).2 ns).2.bufrw.potential = 0
      rcases s1 with s1 | s1 <;> rcases s2 with s2 | s2
      · left; omega
      · right; exact s2
      · right; omega
      · right; exact s2

/-- Reading a stream whose pending bytes are the XOR of `p` with the
keystream from position 0, with a reader at position 0: every run of reads
returns a head of `p`, and a run of enough reads into non-empty buffers
returns all of `p`. -/
theorem readAll_plain (ks : Keystream) (rwc : obfReadWriteCloser) (p : List Nat)
    (hpos : rwc.r.pos = 0)
    (hrem : rwc.bufrw.remaining = xorFrom (ks rwc.r.key rwc.r.iv) 0 p) :
    (∀ sizes, (readAll ks rwc sizes).1 <+: p)
    ∧ (∀ sizes, (∀ n ∈ sizes, 0 < n) → rwc.bufrw.potential ≤ sizes.length →
        (readAll ks rwc sizes).1 = p) := by
  have key : ∀ sizes, ∃ k, (readAll ks rwc sizes).1 = p.take k
      ∧ ((∀ n ∈ sizes, 0 < n) → rwc.bufrw.potential ≤ sizes.length →
          (readAll ks rwc sizes).1 = p) := by
    intro sizes
    obtain ⟨D, h1, h2, h3⟩ := readAll_spec ks rwc sizes
    rw [hpos] at h1
    rw [hrem] at h2
    have hD : D = (xorFrom (ks rwc.r.key rwc.r.iv) 0 p).take D.length := by
      rw [← h2, List.take_left']
      rfl
    have hout : (readAll ks rwc sizes).1 = p.take D.length := by
      rw [h1, congrArg (xorFrom (ks rwc.r.key rwc.r.iv) 0) hD, xorFrom_take, xorFrom_xorFrom]
    refine ⟨D.length, hout, ?_⟩
    intro hp hlen
    have hz : (readAll ks rwc sizes).2.bufrw.potential = 0 := by
      rcases h3 hp with h | h
      · omega
      · exact h
    have hr : (readAll ks rwc sizes).2.bufrw.remaining = [] := by
      unfold BufioReadWriter.potential at hz
      exact List.length_eq_zero.1 (by omega)
    rw [hr, List.append_nil] at h2
    rw [h1, h2, xorFrom_xorFrom]
  constructor
  · intro sizes
    obtain ⟨k, hk, _⟩ := key sizes
    rw [hk]
    exact List.take_prefix _ _
  · intro sizes hp hlen
    obtain ⟨_, _, h⟩ := key sizes
    exact h hp hlen

/-- The first `Read` of 16 bytes on a fresh buffered stream whose first chunk
has at least 16 bytes returns 16 bytes and no error. -/
theorem first_read_sixteen (rsize wsize : Nat) (c : List Nat) (rest : List (List Nat))
    (tx : List Nat) (hc : 16 ≤ c.length) :
    ((NewBufioReadWriter rsize wsize ⟨c :: rest, tx⟩).Read 16).1.2 = none
    ∧ ((NewBufioReadWriter rsize wsize ⟨c :: rest, tx⟩).Read 16).1.1.length = 16 := by
  have hb : (NewBufioReadWriter rsize wsize ⟨c :: rest, tx⟩).rbuf = [] := rfl
  have hrx : (NewBufioReadWriter rsize wsize ⟨c :: rest, tx⟩).conn.rx = c :: rest := rfl
  have hrs : (NewBufioReadWriter rsize wsize ⟨c :: rest, tx⟩).rsize = rsize := rfl
  have hcne : c ≠ [] := by
    intro h0
    simp [h0] at hc
  by_cases hs : rsize ≤ 16
  · rw [Bufio_Read_direct (by norm_num) hb (by rw [hrs]; exact hs)]
    by_cases hle : c.length ≤ 16
    · rw [Conn_Read_whole hrx hle]
      exact ⟨rfl, by simp; omega⟩
    · rw [Conn_Read_part hrx hle]
      exact ⟨rfl, by simp; omega⟩
  · have hs1 : ¬ (NewBufioReadWriter rsize wsize ⟨c :: rest, tx⟩).rsize ≤ 16 := by
      rw [hrs]
      exact hs
    by_cases hle : c.length ≤ rsize
    · have e := Conn_Read_whole (m := rsize) hrx hle
      have hd : ((NewBufioReadWriter rsize wsize ⟨c :: rest, tx⟩).conn.Read
          (NewBufioReadWriter rsize wsize ⟨c :: rest, tx⟩).rsize).1.1 ≠ [] := by
        rw [hrs, e]
        exact hcne
      rw [Bufio_Read_fill (by norm_num) hb hs1 hd, hrs, e]
      exact ⟨rfl, by simp; omega⟩
    · have e := Conn_Read_part (m := rsize) hrx hle
      have hd : ((NewBufioReadWriter rsize wsize ⟨c :: rest, tx⟩).conn.Read
          (NewBufioReadWriter rsize wsize ⟨c :: rest, tx⟩).rsize).1.1 ≠ [] := by
        rw [hrs, e]
        exact take_ne_nil (by omega) hcne
      rw [Bufio_Read_fill (by norm_num) hb hs1 hd, hrs, e]
      exact ⟨rfl, by simp; omega⟩

/-- The inbound codec over a stream whose first chunk has at least 16 bytes:
construction succeeds, the IV of both CTR streams is the first 16 bytes of
the stream, and the bytes yet to deliver are the rest of the stream. -/
theorem NewInbound_spec (rsize wsize : Nat) (key : List Nat) (c : List Nat)
    (rest : List (List Nat)) (tx : List Nat) (hc : 16 ≤ c.length) :
    ∃ B, NewInboundObfReadWriteCloser rsize wsize key ⟨c :: rest, tx⟩ = .ok B
      ∧ B.r = ⟨key, (c ++ rest.flatten).take 16, 0⟩
      ∧ B.w = ⟨key, (c ++ rest.flatten).take 16, 0⟩
      ∧ B.bufrw.remaining = (c ++ rest.flatten).drop 16
      ∧ B.bufrw.conn.rx.length ≤ rest.length + 1
      ∧ B.bufrw.conn.tx ++ B.bufrw.wbuf = tx
      ∧ B.bufrw = ((NewBufioReadWriter rsize wsize ⟨c :: rest, tx⟩).Read 16).2 := by
  obtain ⟨h1, h2⟩ := first_read_sixteen rsize wsize c rest tx hc
  obtain ⟨b1, b2, _, _⟩ := Bufio_Read_spec (NewBufioReadWriter rsize wsize ⟨c :: rest, tx⟩) 16
  have hrem0 : (NewBufioReadWriter rsize wsize ⟨c :: rest, tx⟩).remaining
      = c ++ rest.flatten := by
    simp [BufioReadWriter.remaining, NewBufioReadWriter]
  rw [hrem0] at b1
  have hiv : ((NewBufioReadWriter rsize wsize ⟨c :: rest, tx⟩).Read 16).1.1
      = (c ++ rest.flatten).take 16 := by
    rw [← b1, List.take_left' h2]
  have hdrop : ((NewBufioReadWriter rsize wsize ⟨c :: rest, tx⟩).Read 16).2.remaining
      = (c ++ rest.flatten).drop 16 := by
    rw [← b1, List.drop_left' h2]
  have hpad : ((NewBufioReadWriter rsize wsize ⟨c :: rest, tx⟩).Read 16).1.1
      ++ List.replicate
        (16 - ((NewBufioReadWriter rsize wsize ⟨c :: rest, tx⟩).Read 16).1.1.length) 0
      = (c ++ rest.flatten).take 16 := by
    rw [h2, ← hiv]
    simp
  refine ⟨⟨⟨key, (c ++ rest.flatten).take 16, 0⟩, ⟨key, (c ++ rest.flatten).take 16, 0⟩,
    ((NewBufioReadWriter rsize wsize ⟨c :: rest, tx⟩).Read 16).2⟩, ?_, rfl, rfl, hdrop, ?_, ?_,
    rfl⟩
  · unfold NewInboundObfReadWriteCloser
    simp only [h1, hpad]
  · exact b2
  · obtain ⟨f1, f2⟩ := Bufio_Read_frame (NewBufioReadWriter rsize wsize ⟨c :: rest, tx⟩) 16
    show ((NewBufioReadWriter rsize wsize ⟨c :: rest, tx⟩).Read 16).2.conn.tx
      ++ ((NewBufioReadWriter rsize wsize ⟨c :: rest, tx⟩).Read 16).2.wbuf = tx
    rw [f1, f2]
    simp [NewBufioReadWriter]

/-- The outbound codec before any write: the IV is accepted for writing, both
CTR streams start at position 0 with the IV, and nothing has been read. -/
theorem NewOutbound_spec (rsize wsize : Nat) (iv key : List Nat) (conn : Conn) :
    (NewOutboundObfReadWriteCloser rsize wsize iv key conn).bufrw.conn.tx
        ++ (NewOutboundObfReadWriteCloser rsize wsize iv key conn).bufrw.wbuf = conn.tx ++ iv
    ∧ (NewOutboundObfReadWriteCloser rsize wsize iv key conn).r = ⟨key, iv, 0⟩
    ∧ (NewOutboundObfReadWriteCloser rsize wsize iv key conn).w = ⟨key, iv, 0⟩
    ∧ (NewOutboundObfReadWriteCloser rsize wsize iv key conn).bufrw.remaining = conn.rx.flatten
    ∧ (NewOutboundObfReadWriteCloser rsize wsize iv key conn).bufrw.conn.rx = conn.rx := by
  obtain ⟨w1, w2, w3, _⟩ := Write_pending (NewBufioReadWriter rsize wsize conn) iv
  refine ⟨?_, rfl, rfl, ?_, w2⟩
  · show ((NewBufioReadWriter rsize wsize conn).Write iv).conn.tx
      ++ ((NewBufioReadWriter rsize wsize conn).Write iv).wbuf = conn.tx ++ iv
    rw [w1]
    simp [NewBufioReadWriter]
  · show ((NewBufioReadWriter rsize wsize conn).Write iv).rbuf
      ++ ((NewBufioReadWriter rsize wsize conn).Write iv).conn.rx.flatten = conn.rx.flatten
    rw [w2, w3]
    simp [NewBufioReadWriter]

/-- C10: an outbound codec built with key `key` and IV `iv` (16 bytes) that
makes at least one write emits `iv` followed by the XOR of the bytes written
with the keystream of `(key, iv)`, a ciphertext as long as those bytes. An
inbound codec built with the same key over those bytes, however they are
split into chunks as long as the first chunk holds at least 16 bytes, is
constructed without error; every run of its reads returns a head of the bytes
written, and a run of enough reads into non-empty buffers returns all of
them. In the other direction the inbound codec emits the XOR of what it
writes with the same keystream, and the outbound codec reads those bytes back
in the same sense. -/
theorem C10_codec_roundtrip (ks : Keystream) (rsA wsA rsB wsB : Nat) (key iv : List Nat)
    (ws qs : List (List Nat)) (rxA rxB : List (List Nat))
    (hiv : iv.length = 16) (hws : ws ≠ [])
    (hwire : rxB.flatten
      = (writeAll ks (NewOutboundObfReadWriteCloser rsA wsA iv key ⟨rxA, []⟩) ws).bufrw.conn.tx)
    (hfirst : ∃ c rest, rxB = c :: rest ∧ 16 ≤ c.length) :
    (writeAll ks (NewOutboundObfReadWriteCloser rsA wsA iv key ⟨rxA, []⟩) ws).bufrw.conn.tx
        = iv ++ xorFrom (ks key iv) 0 ws.flatten
    ∧ (xorFrom (ks key iv) 0 ws.flatten).length = ws.flatten.length
    ∧ ∃ B, NewInboundObfReadWriteCloser rsB wsB key ⟨rxB, []⟩ = .ok B
      ∧ (∀ sizes, (readAll ks B sizes).1 <+: ws.flatten)
      ∧ (∀ sizes, (∀ n ∈ sizes, 0 < n) → ws.flatten.length + rxB.length ≤ sizes.length →
          (readAll ks B sizes).1 = ws.flatten)
      ∧ (writeAll ks B qs).bufrw.conn.tx = xorFrom (ks key iv) 0 qs.flatten
      ∧ (rxA.flatten = (writeAll ks B qs).bufrw.conn.tx →
          (∀ sizes, (readAll ks
              (writeAll ks (NewOutboundObfReadWriteCloser rsA wsA iv key ⟨rxA, []⟩) ws)
              sizes).1 <+: qs.flatten)
          ∧ (∀ sizes, (∀ n ∈ sizes, 0 < n) → qs.flatten.length + rxA.length ≤ sizes.length →
              (readAll ks
                (writeAll ks (NewOutboundObfReadWriteCloser rsA wsA iv key ⟨rxA, []⟩) ws)
                sizes).1 = qs.flatten)) := by
  obtain ⟨o1, o2, o3, o4, o5⟩ := NewOutbound_spec rsA wsA iv key ⟨rxA, []⟩
  obtain ⟨a1, a2, a3, a4, a5, _⟩ :=
    writeAll_spec ks (NewOutboundObfReadWriteCloser rsA wsA iv key ⟨rxA, []⟩) ws
  have hemit : (writeAll ks (NewOutboundObfReadWriteCloser rsA wsA iv key ⟨rxA, []⟩)
      ws).bufrw.conn.tx = iv ++ xorFrom (ks key iv) 0 ws.flatten := by
    have h := a1
    rw [a2 hws, o1, o3, List.append_nil] at h
    simpa using h
  refine ⟨hemit, xorFrom_length _ _ _, ?_⟩
  obtain ⟨c, rest, hrx, hc⟩ := hfirst
  obtain ⟨B, b1, b2, b3, b4, b5, b6, _⟩ := NewInbound_spec rsB wsB key c rest [] hc
  have hflat : c ++ rest.flatten = iv ++ xorFrom (ks key iv) 0 ws.flatten := by
    rw [← hemit, ← hwire, hrx]
    rfl
  have htake : (c ++ rest.flatten).take 16 = iv := by
    rw [hflat, List.take_left' hiv]
  have hdrop : (c ++ rest.flatten).drop 16 = xorFrom (ks key iv) 0 ws.flatten := by
    rw [hflat, List.drop_left' hiv]
  rw [htake] at b2 b3
  rw [hdrop] at b4
  have hB := readAll_plain ks B ws.flatten (by rw [b2]) (by rw [b2]; exact b4)
  have hBpot : B.bufrw.potential ≤ ws.flatten.length + rxB.length := by
    unfold BufioReadWriter.potential
    rw [b4, xorFrom_length, hrx]
    simp only [List.length_cons]
    omega
  obtain ⟨q1, q2, _⟩ := writeAll_spec ks B qs
  have hBtx : B.bufrw.conn.tx = [] ∧ B.bufrw.wbuf = [] := List.append_eq_nil.1 b6
  have hBemit : (writeAll ks B qs).bufrw.conn.tx = xorFrom (ks key iv) 0 qs.flatten := by
    rw [b3, hBtx.1, hBtx.2] at q1
    cases qs with
    | nil => simp [writeAll, xorFrom, hBtx.1]
    | cons q rest2 =>
      rw [q2 (by simp), List.append_nil] at q1
      simpa using q1
  rw [hrx]
  refine ⟨B, b1, hB.1, ?_, hBemit, ?_⟩
  · intro sizes hp hlen
    rw [← hrx] at hlen
    exact hB.2 sizes hp (le_trans hBpot hlen)
  · intro hA
    have hrem : (writeAll ks (NewOutboundObfReadWriteCloser rsA wsA iv key ⟨rxA, []⟩)
        ws).bufrw.remaining = xorFrom (ks key iv) 0 qs.flatten := by
      unfold BufioReadWriter.remaining
      rw [a4, a5, ← hBemit, ← hA]
      exact o4
    have hr : (writeAll ks (NewOutboundObfReadWriteCloser rsA wsA iv key ⟨rxA, []⟩) ws).r
        = ⟨key, iv, 0⟩ := by rw [a3, o2]
    have hAr := readAll_plain ks
      (writeAll ks (NewOutboundObfReadWriteCloser rsA wsA iv key ⟨rxA, []⟩) ws) qs.flatten
      (by rw [hr]) (by rw [hr]; exact hrem)
    have hApot : (writeAll ks (NewOutboundObfReadWriteCloser rsA wsA iv key ⟨rxA, []⟩)
        ws).bufrw.potential ≤ qs.flatten.length + rxA.length := by
      unfold BufioReadWriter.potential
      rw [hrem, xorFrom_length, a4, o5]
    exact ⟨hAr.1, fun sizes hp hlen => hAr.2 sizes hp (le_trans hApot hlen)⟩

/-- C10 for the writes `[104, 105]` and `[33]`, delivered to the inbound
side as a chunk of 17 bytes and a chunk of 2: five reads of two bytes return
the three bytes written. -/
theorem C10_codec_roundtrip_witness :
    (List.range 16).length = 16
    ∧ [sampleWire.take 17, sampleWire.drop 17].flatten = sampleWire
    ∧ (∃ c rest, [sampleWire.take 17, sampleWire.drop 17] = c :: rest ∧ 16 ≤ c.length)
    ∧ ∃ B, NewInboundObfReadWriteCloser 4096 4096 (List.replicate 16 7)
          ⟨[sampleWire.take 17, sampleWire.drop 17], []⟩ = .ok B
        ∧ (readAll sampleKeystream B [2, 2, 2, 2, 2]).1 = [104, 105, 33] :=
  ⟨by decide, by decide, ⟨_, _, rfl, by decide⟩,
   match (C10_codec_roundtrip sampleKeystream 4096 4096 4096 4096 (List.replicate 16 7)
      (List.range 16) [[104, 105], [33]] [] []
      [sampleWire.take 17, sampleWire.drop 17] (by decide) (by decide) (by decide)
      ⟨_, _, rfl, by decide⟩).2.2 with
   | ⟨B, hB, _, hfull, _⟩ => ⟨B, hB, hfull [2, 2, 2, 2, 2] (by decide) (by decide)⟩⟩

/-! ## The IV of the inbound codec -/

/-- C11: on a stream whose first underlying read delivers only the first 10
of the 18 bytes `1, ..., 16, 99, 98`, `NewInboundObfReadWriteCloser` returns
no error and installs the IV `1, ..., 10, 0, 0, 0, 0, 0, 0` instead of the
first 16 bytes of the stream, and the bytes left to decrypt start at the
11th byte of the stream. On a stream that ends after 5 bytes it returns no
error either and installs those 5 bytes padded with zeros. -/
theorem C11_short_first_read_wrong_iv :
    ([[1, 2, 3, 4, 5, 6, 7, 8, 9, 10], [11, 12, 13, 14, 15, 16, 99, 98]] : List (List Nat)).flatten.take 16
      = [1, 2, 3, 4, 5, 6, 7, 8, 9, 10, 11, 12, 13, 14, 15, 16]
    ∧ (∃ B, NewInboundObfReadWriteCloser 4096 4096 (List.replicate 16 7)
          ⟨[[1, 2, 3, 4, 5, 6, 7, 8, 9, 10], [11, 12, 13, 14, 15, 16, 99, 98]], []⟩ = .ok B
        ∧ B.r.iv = [1, 2, 3, 4, 5, 6, 7, 8, 9, 10, 0, 0, 0, 0, 0, 0]
        ∧ B.w.iv = [1, 2, 3, 4, 5, 6, 7, 8, 9, 10, 0, 0, 0, 0, 0, 0]
        ∧ B.bufrw.remaining = [11, 12, 13, 14, 15, 16, 99, 98])
    ∧ (∃ B, NewInboundObfReadWriteCloser 4096 4096 (List.replicate 16 7)
          ⟨[[1, 2, 3, 4, 5]], []⟩ = .ok B
        ∧ B.r.iv = [1, 2, 3, 4, 5, 0, 0, 0, 0, 0, 0, 0, 0, 0, 0, 0]
        ∧ B.bufrw.remaining = []) := by
  refine ⟨by decide, ⟨_, rfl, by decide, by decide, by decide⟩, ⟨_, rfl, by decide, by decide⟩⟩

/-! ## The inbound WebSocket layer -/

/-- C12: when `http.ReadRequest` yields a request, `NewInboundWebsocket` goes
on to serve the upgrade exactly when the URL path equals the configured
path and the `Upgrade` header equals `websocket` ignoring case. In the other
case it submits exactly one more scapegoat, whose connection is the stream
left by the reads and rewound, whose decoy address is the configured remote
address, and it returns a nil connection with an error; in the case of an
upgrade nothing is submitted. -/
theorem C12_websocket_gate (readRequest : ReadRequest) (toLower : GoString → GoString)
    (remoteAddr : GoString) (conn : Conn) (config : GlobalConfig) (submitted : List Scapegoat)
    (req : HttpRequest) (rc1 : RewindConn)
    (hparse : readRequest ((NewRewindConn conn).SetBufferSize 512) = (.ok req, rc1))
    (hlow : toLower (bytes "websocket") = bytes "websocket") :
    ((∃ r rc, (NewInboundWebsocket readRequest toLower remoteAddr conn config submitted).phase
          = WsPhase.upgrade r rc)
      ↔ req.Path = config.WebsocketPath ∧ EqualFold toLower req.Upgrade (bytes "websocket"))
    ∧ (¬ (req.Path = config.WebsocketPath
          ∧ EqualFold toLower req.Upgrade (bytes "websocket")) →
        (NewInboundWebsocket readRequest toLower remoteAddr conn config submitted).submitted
          = submitted ++ [⟨rc1.Rewind, config.RemoteAddress,
              bytes "Invalid websocket request from " ++ remoteAddr⟩]
        ∧ rc1.Rewind.rewound = true ∧ rc1.Rewind.conn = rc1.conn ∧ rc1.Rewind.buf = rc1.buf
        ∧ (NewInboundWebsocket readRequest toLower remoteAddr conn config submitted).rewindConn
          = rc1.Rewind.StopBuffering
        ∧ ∃ err, (NewInboundWebsocket readRequest toLower remoteAddr conn config
            submitted).phase = WsPhase.diverted err)
    ∧ (req.Path = config.WebsocketPath ∧ EqualFold toLower req.Upgrade (bytes "websocket") →
        (NewInboundWebsocket readRequest toLower remoteAddr conn config submitted).submitted
          = submitted
        ∧ (NewInboundWebsocket readRequest toLower remoteAddr conn config submitted).phase
          = WsPhase.upgrade req (rc1.SetBufferSize 0)) := by
  have hfold : EqualFold toLower req.Upgrade (bytes "websocket")
      ↔ toLower req.Upgrade = bytes "websocket" := by
    unfold EqualFold
    rw [hlow]
  by_cases hc : req.Path = config.WebsocketPath ∧ toLower req.Upgrade = bytes "websocket"
  · have hcond : ¬ (req.Path ≠ config.WebsocketPath
        ∨ toLower req.Upgrade ≠ bytes "websocket") := by
      rintro (h | h)
      · exact h hc.1
      · exact h hc.2
    have hres : NewInboundWebsocket readRequest toLower remoteAddr conn config submitted
        = ⟨WsPhase.upgrade req (rc1.SetBufferSize 0), submitted, rc1.SetBufferSize 0⟩ := by
      simp only [NewInboundWebsocket, hparse]
      rw [if_neg hcond]
    rw [hres, hfold]
    refine ⟨⟨fun _ => hc, fun _ => ⟨_, _, rfl⟩⟩, fun h => absurd hc h, fun _ => ⟨rfl, rfl⟩⟩
  · have hcond : req.Path ≠ config.WebsocketPath
        ∨ toLower req.Upgrade ≠ bytes "websocket" := by
      by_contra hn
      push_neg at hn
      exact hc hn
    have hres : NewInboundWebsocket readRequest toLower remoteAddr conn config submitted
        = ⟨WsPhase.diverted (Error.text (bytes "Invalid websocket request from " ++ remoteAddr)),
            submitted ++ [⟨rc1.Rewind, config.RemoteAddress,
              bytes "Invalid websocket request from " ++ remoteAddr⟩],
            rc1.Rewind.StopBuffering⟩ := by
      simp only [NewInboundWebsocket, hparse]
      rw [if_pos hcond]
    rw [hres, hfold]
    refine ⟨⟨?_, fun h => absurd h hc⟩, fun _ => ⟨rfl, rfl, rfl, rfl, rfl, _, rfl⟩,
      fun h => absurd h hc⟩
    rintro ⟨r, rc, h⟩
    cases h

/-- C12 for the request `/other` with the header `WebSocket` against the
configured path `/ws`: one scapegoat with the decoy address of the
configuration, and no upgrade. -/
theorem C12_websocket_gate_witness :
    sampleReadRequest ((NewRewindConn ⟨[bytes "/other WebSocket"], []⟩).SetBufferSize 512)
      = (.ok ⟨bytes "/other", bytes "WebSocket"⟩,
          (sampleReadRequest
            ((NewRewindConn ⟨[bytes "/other WebSocket"], []⟩).SetBufferSize 512)).2)
    ∧ asciiLower (bytes "websocket") = bytes "websocket"
    ∧ ((NewInboundWebsocket sampleReadRequest asciiLower (bytes "10.0.0.9:5555")
          ⟨[bytes "/other WebSocket"], []⟩ ⟨bytes "/ws", bytes "decoy:80"⟩ []).submitted.map
        (fun g => g.ShadowAddress)) = [bytes "decoy:80"] :=
  ⟨rfl, by decide,
   by
    rw [((C12_websocket_gate sampleReadRequest asciiLower (bytes "10.0.0.9:5555")
      ⟨[bytes "/other WebSocket"], []⟩ ⟨bytes "/ws", bytes "decoy:80"⟩ []
      ⟨bytes "/other", bytes "WebSocket"⟩
      (sampleReadRequest
        ((NewRewindConn ⟨[bytes "/other WebSocket"], []⟩).SetBufferSize 512)).2
      rfl (by decide)).2.1 (by decide)).1]
    rfl⟩

/-! ## The transparent-proxy listener -/

/-- Over results that are all connections the loop hands each one to
`handleConn` and goes on with the rest. -/
theorem acceptLoop_conns (pre rest : List AcceptResult) (t : ListenTrace)
    (hpre : ∀ x ∈ pre, ∃ id, x = AcceptResult.conn id) :
    acceptLoop (pre ++ rest) t
      = acceptLoop rest { t with handled := t.handled ++ acceptedConns pre,
                                 accepts := t.accepts + pre.length } := by
  induction pre generalizing t with
  | nil => simp [acceptedConns]
  | cons x xs ih =>
    obtain ⟨id, rfl⟩ := hpre x (List.mem_cons_self _ _)
    have h := ih { t with handled := t.handled ++ [id], accepts := t.accepts + 1 }
      (fun y hy => hpre y (List.mem_cons_of_mem _ hy))
    rw [List.cons_append]
    show acceptLoop (xs ++ rest) { t with handled := t.handled ++ [id], accepts := t.accepts + 1 }
      = _
    rw [h]
    congr 1
    simp only [acceptedConns, List.length_cons, List.append_assoc, List.singleton_append]
    congr 1
    omega

/-- C13, as stated, fails: when `Accept` returns an error while no
cancellation is pending and would return the connection 7 next, the loop has
stopped after one call of `Accept` with the error sent on `errChan`, and the
connection 7 is not handed to `handleConn`. -/
theorem C13_accept_error_ends_loop :
    acceptedConns [AcceptResult.error (Error.accept 1) false, AcceptResult.conn 7] = [7]
    ∧ (listenTCP none [AcceptResult.error (Error.accept 1) false, AcceptResult.conn 7]).handled
        = []
    ∧ 7 ∉ (listenTCP none
        [AcceptResult.error (Error.accept 1) false, AcceptResult.conn 7]).handled
    ∧ (listenTCP none [AcceptResult.error (Error.accept 1) false, AcceptResult.conn 7]).exit
        = ListenExit.acceptFailed
    ∧ (listenTCP none [AcceptResult.error (Error.accept 1) false, AcceptResult.conn 7]).accepts
        = 1
    ∧ (listenTCP none [AcceptResult.error (Error.accept 1) false, AcceptResult.conn 7]).errChan
        = [Error.accept 1] := by
  decide

/-- C13, amended: in the loop of `listenTCP` over the results of `Accept`,
every connection returned before the first error is handed to `handleConn`,
in order. At the first error the loop stops, whatever `Accept` would return
later: when cancellation is pending it returns without a report, otherwise it
sends the error on `errChan` and returns; no connection after that error is
handed to `handleConn`. While `Accept` has returned connections only, the
loop waits in `Accept`. -/
theorem C13_loop_stops_at_first_error (pre post : List AcceptResult) (e : Error)
    (hpre : ∀ x ∈ pre, ∃ id, x = AcceptResult.conn id) :
    listenTCP none (pre ++ AcceptResult.error e false :: post)
      = ⟨acceptedConns pre, [e], pre.length + 1, ListenExit.acceptFailed⟩
    ∧ listenTCP none (pre ++ AcceptResult.error e true :: post)
      = ⟨acceptedConns pre, [], pre.length + 1, ListenExit.cancelled⟩
    ∧ listenTCP none pre = ⟨acceptedConns pre, [], pre.length, ListenExit.waiting⟩ := by
  refine ⟨?_, ?_, ?_⟩
  · simp [listenTCP, acceptLoop_conns pre _ _ hpre, acceptLoop]
  · simp [listenTCP, acceptLoop_conns pre _ _ hpre, acceptLoop]
  · have h := acceptLoop_conns pre [] ⟨[], [], 0, ListenExit.waiting⟩ hpre
    rw [List.append_nil] at h
    simp [listenTCP, h, acceptLoop]

/-- C13, amended, for the connections 1 and 2, then an error without
cancellation, then the connection 3. -/
theorem C13_loop_stops_at_first_error_witness :
    (∀ x ∈ [AcceptResult.conn 1, AcceptResult.conn 2], ∃ id, x = AcceptResult.conn id)
    ∧ listenTCP none ([AcceptResult.conn 1, AcceptResult.conn 2]
        ++ AcceptResult.error (Error.accept 1) false :: [AcceptResult.conn 3])
      = ⟨[1, 2], [Error.accept 1], 3, ListenExit.acceptFailed⟩ :=
  ⟨by
    intro x hx
    simp only [List.mem_cons, List.mem_singleton, List.not_mem_nil, or_false] at hx
    rcases hx with rfl | rfl
    · exact ⟨1, rfl⟩
    · exact ⟨2, rfl⟩,
   (C13_loop_stops_at_first_error [AcceptResult.conn 1, AcceptResult.conn 2]
      [AcceptResult.conn 3] (Error.accept 1)
      (by
        intro x hx
        simp only [List.mem_cons, List.mem_singleton, List.not_mem_nil, or_false] at hx
        rcases hx with rfl | rfl
        · exact ⟨1, rfl⟩
        · exact ⟨2, rfl⟩)).1⟩

/-! ## Invalid patterns in domain rules -/

/-- Rules that do not match do not make the loop of `matchDomain` return
true: if it returns true on `pre ++ rest`, it returns true on `rest`. -/
theorem matchDomainLoop_skip (re : RegexpMatch) (f : GoString) (pre rest : List Domain)
    (hpre : ∀ x ∈ pre, ruleHit re f x = false)
    (h : matchDomainLoop re f (pre ++ rest) = true) : matchDomainLoop re f rest = true := by
  induction pre with
  | nil => simpa using h
  | cons x xs ih =>
    have hx := hpre x (List.mem_cons_self _ _)
    apply ih (fun y hy => hpre y (List.mem_cons_of_mem _ hy))
    rw [List.cons_append, matchDomainLoop.eq_def] at h
    unfold ruleHit at hx
    cases ht : x.type <;> simp only [ht] at h hx
    · simpa [hx] using h
    · cases hr : re x.value f with
      | none => simp [hr] at h
      | some m =>
        cases m
        · simpa [hr] using h
        · simp [hr] at hx
    · simpa [hx] using h
    · simpa [hx] using h
    · exact h

theorem matchDomainLoop_invalid_head (re : RegexpMatch) (f : GoString) (d : Domain)
    (post : List Domain) (hd : ruleInvalid re f d = true) :
    matchDomainLoop re f (d :: post) = false := by
  unfold ruleInvalid at hd
  rw [matchDomainLoop.eq_def]
  cases ht : d.type <;> simp only [ht] at hd ⊢ <;> try (exact absurd hd (by decide))
  cases hr : re d.value f with
  | none => rfl
  | some m => simp [hr] at hd

/-- Without invalid patterns the loop of `matchDomain` is the disjunction of
the tests of the rules. -/
theorem matchDomainLoop_valid (re : RegexpMatch) (f : GoString) (ds : List Domain)
    (h : ∀ x ∈ ds, ruleInvalid re f x = false) :
    matchDomainLoop re f ds = ds.any (ruleHit re f) := by
  induction ds with
  | nil => simp [matchDomainLoop]
  | cons x xs ih =>
    have hx := h x (List.mem_cons_self _ _)
    have ih1 := ih (fun y hy => h y (List.mem_cons_of_mem _ hy))
    rw [matchDomainLoop.eq_def, List.any_cons, ← ih1]
    unfold ruleInvalid at hx
    cases ht : x.type <;> simp only [ht] at hx ⊢
    · have hh : ruleHit re f x = Contains f x.value := by simp [ruleHit, ht]
      rw [hh]
      cases hc : Contains f x.value <;> simp
    · have hh : ruleHit re f x = (re x.value f == some true) := by simp [ruleHit, ht]
      rw [hh]
      cases hr : re x.value f with
      | none => simp [hr] at hx
      | some m => cases m <;> simp
    · have hh : ruleHit re f x = suffixHit f x.value := by simp [ruleHit, ht]
      rw [hh]
      cases hc : suffixHit f x.value <;> simp
    · have hh : ruleHit re f x = suffixHit f x.value := by simp [ruleHit, ht]
      rw [hh]
      cases hc : suffixHit f x.value <;> simp
    · have hh : ruleHit re f x = false := by simp [ruleHit, ht]
      rw [hh]
      simp

/-- C14: if the rules of the router are `pre`, then a `Regex` rule `d` whose
pattern does not compile, then `post`, and no rule of `pre` matches
`fulldomain`, then `matchDomain` returns false whatever the rules `post`
are, also when one of them matches. When no `Regex` rule of the router has an
invalid pattern, `matchDomain` returns true exactly if some rule matches, and
a router whose rules are a reordering of these rules gives the same
answer. -/
theorem C14_invalid_pattern_ends_matching (re : RegexpMatch) (r r2 : GeoRouter)
    (fulldomain : GoString) :
    (∀ pre d post, elems r.domains = pre ++ d :: post →
      (∀ x ∈ pre, ruleHit re fulldomain x = false) →
      ruleInvalid re fulldomain d = true →
      matchDomain re r fulldomain = false)
    ∧ ((∀ x ∈ elems r.domains, ruleInvalid re fulldomain x = false) →
        (matchDomain re r fulldomain = true
          ↔ ∃ x ∈ elems r.domains, ruleHit re fulldomain x = true)
        ∧ ((elems r2.domains).Perm (elems r.domains) →
            matchDomain re r2 fulldomain = matchDomain re r fulldomain)) := by
  constructor
  · intro pre d post hds hpre hd
    cases hm : matchDomain re r fulldomain with
    | false => rfl
    | true =>
      exfalso
      unfold matchDomain at hm
      rw [hds] at hm
      have h1 := matchDomainLoop_skip re fulldomain pre (d :: post) hpre hm
      rw [matchDomainLoop_invalid_head re fulldomain d post hd] at h1
      cases h1
  · intro hvalid
    constructor
    · unfold matchDomain
      rw [matchDomainLoop_valid re fulldomain _ hvalid, List.any_eq_true]
    · intro hperm
      have hvalid2 : ∀ x ∈ elems r2.domains, ruleInvalid re fulldomain x = false :=
        fun x hx => hvalid x (hperm.mem_iff.1 hx)
      unfold matchDomain
      rw [matchDomainLoop_valid re fulldomain _ hvalid,
        matchDomainLoop_valid re fulldomain _ hvalid2, Bool.eq_iff_iff, List.any_eq_true,
        List.any_eq_true]
      constructor
      · rintro ⟨x, hx, h⟩
        exact ⟨x, hperm.mem_iff.1 hx, h⟩
      · rintro ⟨x, hx, h⟩
        exact ⟨x, hperm.mem_iff.2 hx, h⟩

/-- C14 for the rules `Regex (` and `Domain example.com` and the name
`www.example.com`: the second rule matches, the pattern of the first does not
compile, and `matchDomain` returns false. -/
theorem C14_invalid_pattern_ends_matching_witness :
    ruleInvalid sampleRegexp (bytes "www.example.com") ⟨DomainType.Regex, bytes "("⟩ = true
    ∧ ruleHit sampleRegexp (bytes "www.example.com")
        ⟨DomainType.Domain, bytes "example.com"⟩ = true
    ∧ matchDomain sampleRegexp
        (domainRouter [⟨DomainType.Regex, bytes "("⟩, ⟨DomainType.Domain, bytes "example.com"⟩])
        (bytes "www.example.com") = false :=
  ⟨by decide, by decide,
   (C14_invalid_pattern_ends_matching sampleRegexp
      (domainRouter [⟨DomainType.Regex, bytes "("⟩, ⟨DomainType.Domain, bytes "example.com"⟩])
      (domainRouter []) (bytes "www.example.com")).1
      [] ⟨DomainType.Regex, bytes "("⟩ [⟨DomainType.Domain, bytes "example.com"⟩]
      rfl (by simp) (by decide)⟩

end TrojanGo

